import Mathlib

/-!
# Incremental content index synchronizer

A shallow embedding of `internal/app/idx.go` (package `app` of the markdown blog):
the `Document` value type, the `articles` table behind `Indexer.Find`, `Insert`,
`Update` and `Delete`, the three HTTP calls to the search service (`indexDoc`,
`removeDoc`, `dropIndexDb`), the start-up pass `Indexer.FirstRun`, and the handlers
that `Indexer.Run` dispatches watcher events to.

Modelling decisions.

* The program state is a `World`: the rows of the table, the `AUTOINCREMENT` counter,
  the number of SQL statements and HTTP requests issued so far, and the trace of
  observable calls in program order.
* Everything the program reads from outside is an `Env`: the file system, the digest
  function, the value a stored `DATETIME` scans back to, a fault oracle for SQL
  statements and the responses of the search service.  Oracles are indexed by the
  number of statements (requests) issued before the call.
* A Go `*Document` that may be `nil` is an `Option Document`; dereferencing `nil` is
  the outcome `Res.panic`.
* `int64` ids are `Int`; no arithmetic on them can overflow in the modelled code
  paths apart from the counter of the table itself.
* Log output and the `DEBUG` switch are not modelled (the switch only guards log
  lines).
-/

namespace MarkdownBlog

/-! ## Values -/

/-- Go `time.Time`: whole seconds since the Unix epoch and nanoseconds within the second. -/
structure Time where
  sec : Int
  nsec : Nat
deriving DecidableEq, Repr

/-- Method `Time.Unix()`: the whole seconds since the epoch. -/
def Time.Unix (t : Time) : Int := t.sec

/-- The zero value of `time.Time` (January 1, year 1, 00:00:00 UTC). -/
def Time.zero : Time := ⟨-62135596800, 0⟩

/-- The type `Document` of `idx.go`. -/
structure Document where
  Id : Int
  Path : String
  Md5sum : String
  ModTime : Time
deriving DecidableEq, Repr

/-- The Go value `&Document{}`: every field at its zero value. -/
def Document.empty : Document := ⟨0, "", "", Time.zero⟩

/-- The type `SMetadata` of `app.go`. -/
structure SMetadata where
  Path : String
  Title : String
  Md5sum : String
deriving DecidableEq, Repr

/-- The type `SDocument` of `app.go`, the body of an index request. -/
structure SDocument where
  Id : Int
  Text : String
  Document : SMetadata
  Score : Int
deriving DecidableEq, Repr

/-- What `fs.FileInfo` gives the indexer: the modification time. -/
structure FileInfo where
  ModTime : Time
deriving DecidableEq, Repr

/-- A file that can be opened: `stat` is `none` when `f.Stat()` fails, `data` is `none`
when reading its bytes fails. -/
structure File where
  stat : Option FileInfo
  data : Option String
deriving DecidableEq, Repr

/-- Outcome of one SQL statement: it runs (`ok`); `db.Query`/`db.Exec` returns an error
(`stmt`); the query is accepted but an error ends `rows.Next()` before the first row
(`next`); or the statement runs and reading its result (`Scan`, `LastInsertId`,
`RowsAffected`) fails (`result`). Only a query iterates rows: an `Exec` statement given the
outcome `next` has no such step and runs as with `ok`. -/
inductive Fault where
  | ok
  | stmt
  | next
  | result
deriving DecidableEq, Repr

/-- Everything the indexer reads from outside the process. -/
structure Env where
  /-- Package variable `MdDir`. -/
  MdDir : String
  /-- The file system: `none` when `os.Open` fails. -/
  files : String → Option File
  /-- Hex MD5 digest of a file content (`fmt.Sprintf("%x", h.Sum(nil))`). -/
  md5hex : String → String
  /-- The `time.Time` that scanning a stored `modtime` column yields. -/
  scanTime : Time → Time
  /-- Fault of the SQL statement issued after `n` earlier ones. -/
  dbFault : Nat → Fault
  /-- Response of the HTTP request issued after `n` earlier ones: a status code, or
  `none` for a transport error. -/
  http : Nat → Option Nat

/-- One row of table `articles`. -/
structure Row where
  id : Int
  path : String
  md5sum : String
  modtime : Time
deriving DecidableEq, Repr

/-- Observable calls, in program order. -/
inductive Event where
  | find (path : String)
  | insert (doc : Document)
  | update (doc : Document)
  | delete (path : String)
  | dropIndexDb
  | indexDoc (doc : Document)
  | removeDoc (doc : Option Document)
  | httpDrop (resp : Option Nat)
  | httpIndex (body : SDocument) (resp : Option Nat)
  | httpRemove (id : Int) (resp : Option Nat)
deriving DecidableEq, Repr

/-- The mutable state: table rows in row order, the `sqlite_sequence` counter, the
numbers of statements and requests issued, and the trace. -/
structure World where
  rows : List Row
  seq : Int
  dbOps : Nat
  httpOps : Nat
  trace : List Event
deriving DecidableEq, Repr

/-- Result of a call that may dereference a nil pointer: the world at the return, or the
world at the moment of the panic. -/
inductive Res (α : Type) where
  | ok (a : α) (w : World)
  | panic (w : World)
deriving Repr

/-- Appends one event to the trace. -/
def World.emit (w : World) (e : Event) : World :=
  { w with trace := w.trace ++ [e] }

/-- Records that one more SQL statement was issued. -/
def World.tick (w : World) : World :=
  { w with dbOps := w.dbOps + 1 }

/-! ## Package variables -/

/-- Package variable `dryIndex` (never assigned after its initialisation). -/
def dryIndex : Bool := false

/-! ## Strings -/

/-- Go `strings.Replace(s, old, new, 1)` on character lists: the first occurrence of `old`
is replaced (an empty `old` matches at the start). -/
def replaceFirst (old new : List Char) : List Char → List Char
  | [] => if old = [] then new else []
  | c :: cs =>
    if old.isPrefixOf (c :: cs) then new ++ (c :: cs).drop old.length
    else c :: replaceFirst old new cs

/-- Go `strings.TrimRight(s, cutset)`: drops every trailing character that occurs in
`cutset`. -/
def TrimRight (s cutset : String) : String :=
  String.mk (s.toList.reverse.dropWhile (fun c => cutset.toList.contains c)).reverse

/-- Method `Document.RelativePath`, with the package variable `MdDir` as argument. -/
def Document.RelativePath (doc : Document) (MdDir : String) : String :=
  let temp := String.mk (replaceFirst MdDir.toList [] doc.Path.toList)
  TrimRight temp ".md"

/-- Method `Document.Title`. -/
def Document.Title (doc : Document) : String :=
  let arr := doc.Path.toList.splitOn '/'
  match arr.getLast? with
  | some last => TrimRight (String.mk last) ".md"
  | none => ""

/-- Method `Document.Compare`: true while modtime and md5sum not equals. -/
def Document.Compare (doc another : Document) : Bool :=
  doc.ModTime.Unix != another.ModTime.Unix || doc.Md5sum != another.Md5sum

/-! ## File system -/

/-- Go `os.Open`: the empty name never opens. -/
def osOpen (env : Env) (path : String) : Option File :=
  if path = "" then none else env.files path

/-- Go `os.ReadFile`. -/
def osReadFile (env : Env) (path : String) : Option String :=
  match osOpen env path with
  | some f => f.data
  | none => none

/-- Function `md5sum`: the digest of the file, or the empty string when the file cannot
be opened or read. -/
def md5sum (env : Env) (path : String) : String :=
  match osOpen env path with
  | some f =>
    match f.data with
    | some content => env.md5hex content
    | none => ""
  | none => ""

/-- Function `NewDocument`: the empty document when the file cannot be opened or
stat'd. -/
def NewDocument (env : Env) (path : String) : Document :=
  match osOpen env path with
  | none => Document.empty
  | some f =>
    match f.stat with
    | none => Document.empty
    | some finfo => { Id := 0, Path := path, Md5sum := md5sum env path, ModTime := finfo.ModTime }

/-- Function `NewDocumentByFileinfo`. -/
def NewDocumentByFileinfo (env : Env) (path : String) (finfo : FileInfo) : Document :=
  { Id := 0, Path := path, Md5sum := md5sum env path, ModTime := finfo.ModTime }

/-! ## The table `articles` -/

/-- The row that `SELECT ... WHERE path=?` returns first. -/
def lookup (rows : List Row) (path : String) : Option Row :=
  rows.find? (fun r => decide (r.path = path))

/-- The document that `rows.Scan` fills from a row. -/
def Row.scan (env : Env) (r : Row) : Document :=
  { Id := r.id, Path := r.path, Md5sum := r.md5sum, ModTime := env.scanTime r.modtime }

/-- The id that `AUTOINCREMENT` assigns next: one more than every id in the table and
every id assigned before. -/
def nextId (w : World) : Int :=
  w.rows.foldl (fun m r => max m r.id) w.seq + 1

/-- Method `Indexer.Find`: `(doc, true)` for a match, `(nil, true)` when `rows.Next()` is
false (no row matches, or an error ends the iteration, also for a path that has a row),
`(nil, false)` when the query or the scan fails. -/
def Find (env : Env) (path : String) (w : World) : (Option Document × Bool) × World :=
  let w1 := (w.emit (Event.find path)).tick
  match env.dbFault w.dbOps, lookup w.rows path with
  | Fault.stmt, _ => ((none, false), w1)
  | Fault.next, _ => ((none, true), w1)
  | _, none => ((none, true), w1)
  | Fault.result, some _ => ((none, false), w1)
  | Fault.ok, some r => ((some (r.scan env), true), w1)

/-- Method `Indexer.Insert`: returns the document with its `Id` set on success. A failing
`LastInsertId` leaves the inserted row in the table. -/
def Insert (env : Env) (doc : Document) (w : World) : (Document × Int × Bool) × World :=
  let w1 := (w.emit (Event.insert doc)).tick
  let id := nextId w
  let w2 := { w1 with rows := w.rows ++ [⟨id, doc.Path, doc.Md5sum, doc.ModTime⟩], seq := id }
  match env.dbFault w.dbOps with
  | Fault.stmt => ((doc, -1, false), w1)
  | Fault.result => ((doc, -1, false), w2)
  | Fault.ok => (({ doc with Id := id }, id, true), w2)
  | Fault.next => (({ doc with Id := id }, id, true), w2)

/-- Method `Indexer.Update`: overwrites `md5sum` and `modtime` of the rows with the
document's id and returns the number of rows affected. -/
def Update (env : Env) (doc : Document) (w : World) : (Int × Bool) × World :=
  let w1 := (w.emit (Event.update doc)).tick
  let c : Int := (w.rows.filter (fun r => decide (r.id = doc.Id))).length
  let w2 := { w1 with rows := w.rows.map (fun r =>
    if r.id = doc.Id then { r with md5sum := doc.Md5sum, modtime := doc.ModTime } else r) }
  match env.dbFault w.dbOps with
  | Fault.stmt => ((-1, false), w1)
  | Fault.result => ((-1, false), w2)
  | Fault.ok => ((c, true), w2)
  | Fault.next => ((c, true), w2)

/-- Method `Indexer.Delete`: removes every row with the path and returns the number of rows
affected. -/
def Delete (env : Env) (path : String) (w : World) : (Int × Bool) × World :=
  let w1 := (w.emit (Event.delete path)).tick
  let c : Int := (w.rows.filter (fun r => decide (r.path = path))).length
  let w2 := { w1 with rows := w.rows.filter (fun r => !decide (r.path = path)) }
  match env.dbFault w.dbOps with
  | Fault.stmt => ((-1, false), w1)
  | Fault.result => ((-1, false), w2)
  | Fault.ok => ((c, true), w2)
  | Fault.next => ((c, true), w2)

/-! ## The search service -/

/-- One HTTP request: looks the response up, records it and counts the request. -/
def httpDo (env : Env) (mk : Option Nat → Event) (w : World) : Option Nat × World :=
  let r := env.http w.httpOps
  (r, { w.emit (mk r) with httpOps := w.httpOps + 1 })

/-- The value `r.StatusCode == 200`, false on a transport error. -/
def isOK (r : Option Nat) : Bool :=
  match r with
  | some code => code == 200
  | none => false

/-- Function `dropIndexDb`. -/
def dropIndexDb (env : Env) (w : World) : Bool × World :=
  let w0 := w.emit Event.dropIndexDb
  if dryIndex then (true, w0)
  else
    let (r, w1) := httpDo env Event.httpDrop w0
    (isOK r, w1)

/-- The value `article` that `indexDoc` builds from the document and the file content. -/
def article (env : Env) (doc : Document) (content : String) : SDocument :=
  { Id := doc.Id, Text := content,
    Document := { Path := doc.RelativePath env.MdDir, Title := doc.Title,
                  Md5sum := doc.Md5sum },
    Score := 0 }

/-- Function `indexDoc`: posts the document unless its file cannot be read. -/
def indexDoc (env : Env) (doc : Document) (w : World) : Bool × World :=
  let w0 := w.emit (Event.indexDoc doc)
  if dryIndex then (true, w0)
  else
    match osReadFile env doc.Path with
    | some content =>
      let (r, w1) := httpDo env (Event.httpIndex (article env doc content)) w0
      (isOK r, w1)
    | none => (false, w0)

/-- The events of one call of `indexDoc`: the call, and the request when the file can be
read. -/
def indexEvents (env : Env) (d : Document) (w : World) : List Event :=
  match osReadFile env d.Path with
  | some c => [Event.indexDoc d, Event.httpIndex (article env d c) (env.http w.httpOps)]
  | none => [Event.indexDoc d]

/-- Function `removeDoc`: reading `doc.Id` of a nil document panics. -/
def removeDoc (env : Env) (doc : Option Document) (w : World) : Res Bool :=
  let w0 := w.emit (Event.removeDoc doc)
  if dryIndex then Res.ok true w0
  else
    match doc with
    | none => Res.panic w0
    | some d =>
      let (r, w1) := httpDo env (Event.httpRemove d.Id) w0
      Res.ok (isOK r) w1

/-! ## Handlers -/

/-- Method `Indexer.AddArticle`. -/
def AddArticle (env : Env) (path : String) (w : World) : World :=
  let doc := NewDocument env path
  match Insert env doc w with
  | ((doc1, _, true), w1) => (indexDoc env doc1 w1).2
  | ((_, _, false), w1) => w1

/-- Method `Indexer.DelArticle`. -/
def DelArticle (env : Env) (path : String) (w : World) : Res Unit :=
  match Find env path w with
  | ((doc, true), w1) =>
    match Delete env path w1 with
    | ((_, true), w2) =>
      match removeDoc env doc w2 with
      | Res.ok _ w3 => Res.ok () w3
      | Res.panic w3 => Res.panic w3
    | ((_, false), w2) => Res.ok () w2
  | ((_, false), w1) => Res.ok () w1

/-- Method `Indexer.UpdateArticle`: `a.Compare(b)` reads `a.ModTime` and panics when the
lookup returned `(nil, true)`. -/
def UpdateArticle (env : Env) (path : String) (w : World) : Res Unit :=
  match Find env path w with
  | ((a, true), w1) =>
    let b := NewDocument env path
    match a with
    | none => Res.panic w1
    | some a =>
      if a.Compare b then
        let b1 := { b with Id := a.Id }
        match Update env b1 w1 with
        | ((_, true), w2) => Res.ok () (indexDoc env b1 w2).2
        | ((_, false), w2) => Res.ok () w2
      else Res.ok () w1
  | ((_, false), w1) => Res.ok () (AddArticle env path w1)

/-- Method `Indexer.MoveArticle`. -/
def MoveArticle (env : Env) (oldPath path : String) (w : World) : Res Unit :=
  match DelArticle env oldPath w with
  | Res.ok _ w1 => Res.ok () (AddArticle env path w1)
  | Res.panic w1 => Res.panic w1

/-- One iteration of the loop of `Indexer.FirstRun`, for the watched file `path` with file
info `f`. -/
def FirstRun.step (env : Env) (Force : Bool) (w : World) (entry : String × FileInfo) : World :=
  let path := entry.1
  let f := entry.2
  match Find env path w with
  | ((some a, true), w1) =>
    let b := NewDocumentByFileinfo env path f
    if Force then
      let w2 := if a.Compare b then (Update env { b with Id := a.Id } w1).2 else w1
      (indexDoc env a w2).2
    else
      if a.Compare b then
        let b1 := { b with Id := a.Id }
        match Update env b1 w1 with
        | ((_, true), w2) => (indexDoc env b1 w2).2
        | ((_, false), w2) => w2
      else w1
  | (_, w1) => AddArticle env path w1

/-- Method `Indexer.FirstRun` over the watched files `snap` (the map
`i.w.WatchedFiles()` in the order the loop visits it). -/
def FirstRun (env : Env) (Force : Bool) (snap : List (String × FileInfo)) (w : World) : World :=
  let w0 := if Force then (dropIndexDb env w).2 else w
  snap.foldl (FirstRun.step env Force) w0

/-- The operations of `watcher.Op`. -/
inductive Op where
  | Create
  | Write
  | Remove
  | Rename
  | Chmod
  | Move
deriving DecidableEq, Repr

/-- The fields of `watcher.Event` that `Run` reads. -/
structure WatcherEvent where
  Op : Op
  Path : String
  OldPath : String
deriving DecidableEq, Repr

/-- The `switch` of `Indexer.Run` for one received event. -/
def Run.dispatch (env : Env) (event : WatcherEvent) (w : World) : Res Unit :=
  match event.Op with
  | Op.Remove => DelArticle env event.Path w
  | Op.Create => Res.ok () (AddArticle env event.Path w)
  | Op.Write => UpdateArticle env event.Path w
  | Op.Move => MoveArticle env event.OldPath event.Path w
  | Op.Rename => MoveArticle env event.OldPath event.Path w
  | Op.Chmod => Res.ok () w

/-- The loop of `Indexer.Run` over the events the watcher delivers, in order; a panic ends
the process and the remaining events are not handled. -/
def Run (env : Env) (events : List WatcherEvent) (w : World) : Res Unit :=
  match events with
  | [] => Res.ok () w
  | event :: rest =>
    match Run.dispatch env event w with
    | Res.ok _ w1 => Run env rest w1
    | Res.panic w1 => Res.panic w1

/-! ## Predicates used in the statements -/

/-- Every SQL statement runs and its result can be read. -/
def NoDbFault (env : Env) : Prop := ∀ n, env.dbFault n = Fault.ok

/-- The file can be opened, stat'd and read. -/
def Readable (env : Env) (path : String) : Prop :=
  ∃ f finfo content, osOpen env path = some f ∧ f.stat = some finfo ∧ f.data = some content

/-- The event is a call of `indexDoc` for a document with the given path. -/
def Event.isIndexOf (path : String) : Event → Bool
  | Event.indexDoc doc => decide (doc.Path = path)
  | _ => false

/-- The event is a store write: a call of `Insert`, `Update` or `Delete`. -/
def Event.isStoreWrite : Event → Bool
  | Event.insert _ => true
  | Event.update _ => true
  | Event.delete _ => true
  | _ => false

/-- The event is a downstream push: a call of `indexDoc`, `removeDoc` or `dropIndexDb`, or
an HTTP request to the search service. -/
def Event.isPush : Event → Bool
  | Event.find _ => false
  | Event.insert _ => false
  | Event.update _ => false
  | Event.delete _ => false
  | _ => true

/-- Number of rows of the table with the given path. -/
def rowsFor (path : String) (w : World) : Nat :=
  w.rows.countP (fun r => decide (r.path = path))

/-- Number of calls of `indexDoc` for the given path among the events. -/
def indexCalls (path : String) (evs : List Event) : Nat :=
  evs.countP (Event.isIndexOf path)

/-- The watched file is recorded in the store with the digest and the modification second
that the start-up pass computes for it. -/
def Synced (env : Env) (w : World) (entry : String × FileInfo) : Prop :=
  ∃ r, lookup w.rows entry.1 = some r ∧
    (r.scan env).Compare (NewDocumentByFileinfo env entry.1 entry.2) = false

/-- The modification times of the snapshot are, to the second, those the files have on
disk. -/
def SnapshotFresh (env : Env) (snap : List (String × FileInfo)) : Prop :=
  ∀ e ∈ snap, ∀ f finfo, osOpen env e.1 = some f → f.stat = some finfo →
    finfo.ModTime.Unix = e.2.ModTime.Unix

/-- The event is a call of `dropIndexDb` or its HTTP request. -/
def Event.isDrop : Event → Bool
  | Event.dropIndexDb => true
  | Event.httpDrop _ => true
  | _ => false

/-- The event is a call of `Find`. -/
def Event.isFind : Event → Bool
  | Event.find _ => true
  | _ => false

/-- The event is a call of `indexDoc`. -/
def Event.isIndexCall : Event → Bool
  | Event.indexDoc _ => true
  | _ => false

/-- The events of one iteration of the forced pass for the watched file `entry`: the lookup
of its path, then no further lookup and no drop, and exactly one call of `indexDoc`, which
carries the path when the file is readable. -/
def ForcedSegment (env : Env) (entry : String × FileInfo) (seg : List Event) : Prop :=
  ∃ rest, seg = Event.find entry.1 :: rest ∧
    (∀ x ∈ rest, x.isFind = false ∧ x.isDrop = false) ∧
    rest.countP Event.isIndexCall = 1 ∧
    (Readable env entry.1 → indexCalls entry.1 rest = 1)

/-- At most one row per path. -/
def PathUnique (w : World) : Prop := (w.rows.map Row.path).Nodup

instance (w : World) : Decidable (PathUnique w) := by
  unfold PathUnique
  infer_instance

/-! ## A concrete environment -/

/-- A file system with two readable files, a store that truncates times to whole seconds,
no SQL fault and a search service that answers 200. -/
def demoEnv : Env :=
  { MdDir := "md/"
    files := fun p =>
      if p = "md/a.md" then some ⟨some ⟨⟨100, 7⟩⟩, some "hello"⟩
      else if p = "md/b.md" then some ⟨some ⟨⟨200, 9⟩⟩, some "world"⟩
      else none
    md5hex := fun s => "#" ++ s
    scanTime := fun t => ⟨t.sec, 0⟩
    dbFault := fun _ => Fault.ok
    http := fun _ => some 200 }

/-- The watched files of `demoEnv`. -/
def demoSnap : List (String × FileInfo) :=
  [("md/a.md", ⟨⟨100, 7⟩⟩), ("md/b.md", ⟨⟨200, 9⟩⟩)]

/-- A store that tracks `md/a.md` with an outdated digest. -/
def demoWorld : World :=
  { rows := [⟨1, "md/a.md", "#old", ⟨50, 0⟩⟩], seq := 1, dbOps := 0, httpOps := 0, trace := [] }

/-- The empty store. -/
def emptyWorld : World :=
  { rows := [], seq := 0, dbOps := 0, httpOps := 0, trace := [] }

/-! ## The store part of the world and further environments -/

/-- The world a call ends in, whether it returns or panics. -/
def Res.world {α : Type} : Res α → World
  | Res.ok _ w => w
  | Res.panic w => w

/-- The demo environment with a failing second SQL statement. -/
def faultyEnv : Env :=
  { demoEnv with dbFault := fun n => if n = 1 then Fault.stmt else Fault.ok }

/-- The metadata store part of the world: the rows, the id counter and the number of SQL
statements issued. -/
def World.store (w : World) : List Row × Int × Nat := (w.rows, w.seq, w.dbOps)

/-- Whether the call returned normally. -/
def Res.returns {α : Type} : Res α → Bool
  | Res.ok _ _ => true
  | Res.panic _ => false

/-- The demo environment with an unreachable search service: every request fails. -/
def offlineEnv : Env := { demoEnv with http := fun _ => none }

/-! ## Store-first discipline of a trace -/

/-- The event is an SQL statement: a call of `Find`, `Insert`, `Update` or `Delete`. -/
def Event.isDbOp : Event → Bool
  | Event.find _ => true
  | Event.insert _ => true
  | Event.update _ => true
  | Event.delete _ => true
  | _ => false

/-- Number of SQL statements among the events. -/
def dbCount (evs : List Event) : Nat := evs.countP Event.isDbOp

/-- The store writes. -/
inductive Write where
  | insert
  | update
  | delete
deriving DecidableEq, Repr

/-- What the store was last asked while a trace is read: nothing yet, a lookup of a path,
or a write for a path with its outcome. -/
inductive Last where
  | none
  | lookup (path : String)
  | write (kind : Write) (path : String) (ok : Bool)
deriving DecidableEq, Repr

/-- The write method reports success (`ok` is true in `Insert`, `Update`, `Delete`) under
this outcome of its statement. -/
def Fault.writeOk : Fault → Bool
  | Fault.ok => true
  | Fault.next => true
  | Fault.stmt => false
  | Fault.result => false

/-- A push for `path` is in order after `last`. Strictly (`exempt` false): only after a
write for that path that succeeded. With the exemption of the forced pass (`exempt` true):
also right after the lookup of that path, and after an `Update` for it whatever its
outcome. -/
def allowsPush (exempt : Bool) (last : Last) (path : String) : Bool :=
  match last with
  | Last.write Write.update p ok => (exempt || ok) && decide (p = path)
  | Last.write _ p ok => ok && decide (p = path)
  | Last.lookup p => exempt && decide (p = path)
  | Last.none => false

/-- A request, or a `removeDoc` of the nil document, is in order after `last` (as
`allowsPush`, without the path). -/
def lastOk (exempt : Bool) (last : Last) : Bool :=
  match last with
  | Last.write Write.update _ ok => exempt || ok
  | Last.write _ _ ok => ok
  | Last.lookup _ => exempt
  | Last.none => false

/-- Store-first discipline of a run of events whose first SQL statement is the `n`-th of the
process; `last` is what the store was last asked. Every call of `indexDoc` and `removeDoc`
and every index or remove request must be in order after the last store statement:
strictly, it comes after a store write for the same record that succeeded, with no lookup
in between. -/
def storeFirst (env : Env) (exempt : Bool) : Nat → Last → List Event → Bool
  | _, _, [] => true
  | n, _, Event.find p :: rest => storeFirst env exempt (n + 1) (Last.lookup p) rest
  | n, _, Event.insert d :: rest =>
    storeFirst env exempt (n + 1) (Last.write Write.insert d.Path (env.dbFault n).writeOk) rest
  | n, _, Event.update d :: rest =>
    storeFirst env exempt (n + 1) (Last.write Write.update d.Path (env.dbFault n).writeOk) rest
  | n, _, Event.delete p :: rest =>
    storeFirst env exempt (n + 1) (Last.write Write.delete p (env.dbFault n).writeOk) rest
  | n, last, Event.indexDoc d :: rest =>
    allowsPush exempt last d.Path && storeFirst env exempt n last rest
  | n, last, Event.removeDoc (some d) :: rest =>
    allowsPush exempt last d.Path && storeFirst env exempt n last rest
  | n, last, Event.removeDoc none :: rest =>
    lastOk exempt last && storeFirst env exempt n last rest
  | n, last, Event.httpIndex _ _ :: rest =>
    lastOk exempt last && storeFirst env exempt n last rest
  | n, last, Event.httpRemove _ _ :: rest =>
    lastOk exempt last && storeFirst env exempt n last rest
  | n, last, Event.dropIndexDb :: rest => storeFirst env exempt n last rest
  | n, last, Event.httpDrop _ :: rest => storeFirst env exempt n last rest

/-- The step from `w` to `w1` appends events that follow the store-first discipline from
any starting state, and counts its SQL statements. -/
def StoreFirstStep (env : Env) (exempt : Bool) (w w1 : World) : Prop :=
  ∃ evs, w1.trace = w.trace ++ evs ∧ w1.dbOps = w.dbOps + dbCount evs ∧
    ∀ last, storeFirst env exempt w.dbOps last evs = true

/-- Among the events there is a call of `indexDoc` for a document with the given path,
directly followed by its index request, whose body carries the id and the digest of that
document, the content of the file at the path, and the derived relative path and title. -/
def RequestSent (env : Env) (path : String) (evs : List Event) : Prop :=
  ∃ (d : Document) (content : String) (resp : Option Nat) (pre post : List Event),
    osReadFile env path = some content ∧ d.Path = path ∧
    evs = pre ++ Event.indexDoc d ::
      Event.httpIndex ⟨d.Id, content, ⟨d.RelativePath env.MdDir, d.Title, d.Md5sum⟩, 0⟩ resp
        :: post

/-- A snapshot of `demoEnv` taken before `md/a.md` was last modified: it records second 90,
the file on disk has second 100. -/
def staleSnap : List (String × FileInfo) :=
  [("md/a.md", ⟨⟨90, 0⟩⟩)]

/-! # Theorems -/

/-! ## Store operations without faults -/

theorem Find_ok (env : Env) (p : String) (w : World) (h : env.dbFault w.dbOps = Fault.ok) :
    Find env p w
      = (((lookup w.rows p).map (Row.scan env), true), (w.emit (Event.find p)).tick) := by
  unfold Find
  rw [h]
  cases lookup w.rows p <;> rfl

theorem Insert_ok (env : Env) (doc : Document) (w : World)
    (h : env.dbFault w.dbOps = Fault.ok) :
    Insert env doc w
      = (({ doc with Id := nextId w }, nextId w, true),
         { (w.emit (Event.insert doc)).tick with
           rows := w.rows ++ [⟨nextId w, doc.Path, doc.Md5sum, doc.ModTime⟩], seq := nextId w }) := by
  unfold Insert
  rw [h]

theorem Update_ok (env : Env) (doc : Document) (w : World)
    (h : env.dbFault w.dbOps = Fault.ok) :
    Update env doc w
      = ((((w.rows.filter (fun r => decide (r.id = doc.Id))).length : Int), true),
         { (w.emit (Event.update doc)).tick with
           rows := w.rows.map (fun r =>
             if r.id = doc.Id then { r with md5sum := doc.Md5sum, modtime := doc.ModTime }
             else r) }) := by
  unfold Update
  rw [h]

theorem Delete_ok (env : Env) (p : String) (w : World)
    (h : env.dbFault w.dbOps = Fault.ok) :
    Delete env p w
      = ((((w.rows.filter (fun r => decide (r.path = p))).length : Int), true),
         { (w.emit (Event.delete p)).tick with
           rows := w.rows.filter (fun r => !decide (r.path = p)) }) := by
  unfold Delete
  rw [h]

/-! ## The search service and `AddArticle` -/

theorem indexDoc_world (env : Env) (d : Document) (w : World) :
    (indexDoc env d w).2
      = { w with trace := w.trace ++ indexEvents env d w,
                 httpOps := w.httpOps + ((indexEvents env d w).length - 1) } := by
  unfold indexDoc indexEvents
  simp only [dryIndex, Bool.false_eq_true, if_false]
  cases h : osReadFile env d.Path with
  | none => simp [World.emit]
  | some c => simp [httpDo, World.emit]

theorem indexCalls_indexEvents (env : Env) (d : Document) (w : World) (p : String) :
    indexCalls p (indexEvents env d w) = if d.Path = p then 1 else 0 := by
  unfold indexEvents indexCalls
  cases h : osReadFile env d.Path <;> by_cases hp : d.Path = p <;>
    simp [List.countP_cons, Event.isIndexOf, hp]

theorem AddArticle_ok (env : Env) (q : String) (w : World)
    (h : env.dbFault w.dbOps = Fault.ok) :
    AddArticle env q w
      = { rows := w.rows ++ [⟨nextId w, (NewDocument env q).Path, (NewDocument env q).Md5sum,
                              (NewDocument env q).ModTime⟩],
          seq := nextId w,
          dbOps := w.dbOps + 1,
          httpOps := w.httpOps
            + ((indexEvents env { NewDocument env q with Id := nextId w } w).length - 1),
          trace := w.trace ++ Event.insert (NewDocument env q)
            :: indexEvents env { NewDocument env q with Id := nextId w } w } := by
  unfold AddArticle
  simp only [Insert_ok env _ w h, indexDoc_world]
  simp [World.emit, World.tick, indexEvents]

/-! ## New paths in the start-up pass -/

theorem NewDocument_path (env : Env) (q : String) :
    (NewDocument env q).Path = q ∨ (NewDocument env q).Path = "" := by
  unfold NewDocument
  cases osOpen env q with
  | none => exact Or.inr rfl
  | some f =>
    cases hs : f.stat with
    | none => simp [hs, Document.empty]
    | some fi => simp [hs]

theorem NewDocument_readable (env : Env) (q : String) (h : Readable env q) :
    ∃ finfo : FileInfo, NewDocument env q = ⟨0, q, md5sum env q, finfo.ModTime⟩ ∧
      ∃ content, osReadFile env q = some content := by
  obtain ⟨f, fi, c, ho, hs, hd⟩ := h
  refine ⟨fi, ?_, c, ?_⟩
  · simp [NewDocument, ho, hs]
  · simp [osReadFile, ho, hd]

theorem Readable.ne_empty {env : Env} {q : String} (h : Readable env q) : q ≠ "" := by
  obtain ⟨f, _, _, ho, _, _⟩ := h
  intro hq
  simp [osOpen, hq] at ho

theorem lookup_path {rows : List Row} {p : String} {r : Row} (h : lookup rows p = some r) :
    r.path = p := by
  have := List.find?_some h
  simpa using this

theorem lookup_mem {rows : List Row} {p : String} {r : Row} (h : lookup rows p = some r) :
    r ∈ rows := List.mem_of_find?_eq_some h

theorem lookup_eq_none {rows : List Row} {p : String} :
    lookup rows p = none ↔ ∀ r ∈ rows, r.path ≠ p := by
  simp [lookup, List.find?_eq_none]

theorem countP_path_update (rows : List Row) (p : String) (k : Int) (m : String) (t : Time) :
    (rows.map (fun r => if r.id = k then { r with md5sum := m, modtime := t } else r)).countP
        (fun r => decide (r.path = p))
      = rows.countP (fun r => decide (r.path = p)) := by
  induction rows with
  | nil => rfl
  | cons r rs ih =>
    simp only [List.map_cons, List.countP_cons, ih]
    by_cases h : r.id = k <;> simp [h]

theorem step_other (env : Env) (Force : Bool) (w : World) (q : String) (f : FileInfo)
    (p : String) (hdb : NoDbFault env) (hp : p ≠ "") (hq : q ≠ p) :
    rowsFor p (FirstRun.step env Force w (q, f)) = rowsFor p w ∧
    ∃ evs, (FirstRun.step env Force w (q, f)).trace = w.trace ++ evs ∧ indexCalls p evs = 0 := by
  unfold FirstRun.step
  simp only [Find_ok env q w (hdb _)]
  cases hl : lookup w.rows q with
  | none =>
    simp only [Option.map_none']
    rw [AddArticle_ok env q _ (hdb _)]
    have hne : (NewDocument env q).Path ≠ p := by
      rcases NewDocument_path env q with h | h <;> rw [h]
      · exact hq
      · exact fun h => hp h.symm
    refine ⟨?_, _, by simp [World.emit, World.tick]; rfl, ?_⟩
    · simp [rowsFor, World.emit, World.tick, List.countP_append, hne]
    · simp [indexCalls, List.countP_append, List.countP_cons, Event.isIndexOf]
      have := indexCalls_indexEvents env { NewDocument env q with Id := nextId ((w.emit (Event.find q)).tick) } ((w.emit (Event.find q)).tick) p
      simp [indexCalls, hne] at this
      exact this
  | some r =>
    have hrp : (r.scan env).Path ≠ p := by
      simp only [Row.scan]
      rw [lookup_path hl]
      exact hq
    have hidx : ∀ d : Document, d.Path ≠ p → ∀ w1 : World, indexCalls p (indexEvents env d w1) = 0 := by
      intro d hd w1
      rw [indexCalls_indexEvents]
      simp [hd]
    simp only [Option.map_some']
    cases Force
    · simp only [Bool.false_eq_true, if_false]
      by_cases hc : (r.scan env).Compare (NewDocumentByFileinfo env q f) = true
      · simp only [hc, if_true, Update_ok env _ _ (hdb _), indexDoc_world]
        refine ⟨?_, _, by simp [World.emit, World.tick]; rfl, ?_⟩
        · simp only [rowsFor, World.emit, World.tick, countP_path_update]
        · have := hidx { NewDocumentByFileinfo env q f with Id := (r.scan env).Id }
            (by simpa [NewDocumentByFileinfo] using hq)
          simp [indexCalls, List.countP_append, List.countP_cons, Event.isIndexOf] at this ⊢
          exact this _
      · simp only [hc, if_false]
        exact ⟨by simp [rowsFor, World.emit, World.tick], [Event.find q],
          by simp [World.emit, World.tick], by simp [indexCalls, Event.isIndexOf]⟩
    · simp only [if_true, indexDoc_world]
      by_cases hc : (r.scan env).Compare (NewDocumentByFileinfo env q f) = true
      · simp only [hc, if_true, Update_ok env _ _ (hdb _)]
        refine ⟨?_, _, by simp [World.emit, World.tick]; rfl, ?_⟩
        · simp only [rowsFor, World.emit, World.tick, countP_path_update]
        · have := hidx (r.scan env) hrp
          simp [indexCalls, List.countP_append, List.countP_cons, Event.isIndexOf] at this ⊢
          exact this _
      · simp only [hc, if_false]
        refine ⟨?_, _, by simp [World.emit, World.tick]; rfl, ?_⟩
        · simp [rowsFor, World.emit, World.tick]
        · have := hidx (r.scan env) hrp
          simp [indexCalls, List.countP_append, List.countP_cons, Event.isIndexOf] at this ⊢
          exact this _

theorem rowsFor_eq_zero {w : World} {p : String} (h : lookup w.rows p = none) :
    rowsFor p w = 0 := by
  rw [lookup_eq_none] at h
  simp only [rowsFor, List.countP_eq_zero]
  intro r hr
  simpa using h r hr

theorem step_self (env : Env) (Force : Bool) (w : World) (p : String) (f : FileInfo)
    (hdb : NoDbFault env) (hr : Readable env p)
    (h : Force = true ∨ lookup w.rows p = none) :
    (lookup w.rows p = none → rowsFor p (FirstRun.step env Force w (p, f)) = 1) ∧
    ∃ evs, (FirstRun.step env Force w (p, f)).trace = w.trace ++ evs ∧ indexCalls p evs = 1 := by
  unfold FirstRun.step
  simp only [Find_ok env p w (hdb _)]
  cases hl : lookup w.rows p with
  | none =>
    simp only [Option.map_none']
    rw [AddArticle_ok env p _ (hdb _)]
    obtain ⟨fi, hnd, _, _⟩ := NewDocument_readable env p hr
    refine ⟨fun _ => ?_, _, by simp [World.emit, World.tick]; rfl, ?_⟩
    · have h0 := rowsFor_eq_zero hl
      simp only [rowsFor] at h0
      simp [rowsFor, World.emit, World.tick, List.countP_append, hnd, h0]
    · have := indexCalls_indexEvents env
        { NewDocument env p with Id := nextId ((w.emit (Event.find p)).tick) }
        ((w.emit (Event.find p)).tick) p
      simp only [hnd, if_true] at this
      simp only [indexCalls] at this
      simp [indexCalls, List.countP_append, List.countP_cons, Event.isIndexOf, hnd]
      exact this
  | some r =>
    have hF : Force = true := by
      rcases h with h | h
      · exact h
      · rw [hl] at h; exact absurd h (by simp)
    subst hF
    have hrp : (r.scan env).Path = p := by
      simp only [Row.scan]
      exact lookup_path hl
    have hidx : ∀ w1 : World, indexCalls p (indexEvents env (r.scan env) w1) = 1 := by
      intro w1
      rw [indexCalls_indexEvents]
      simp [hrp]
    simp only [Option.map_some', if_true, indexDoc_world]
    refine ⟨fun h => by simp at h, ?_⟩
    by_cases hc : (r.scan env).Compare (NewDocumentByFileinfo env p f) = true
    · simp only [hc, if_true, Update_ok env _ _ (hdb _)]
      refine ⟨_, by simp [World.emit, World.tick]; rfl, ?_⟩
      simp only [indexCalls] at hidx
      simp [indexCalls, List.countP_append, List.countP_cons, Event.isIndexOf, hidx]
    · simp only [hc, if_false]
      refine ⟨_, by simp [World.emit, World.tick]; rfl, ?_⟩
      simp only [indexCalls] at hidx
      simp [indexCalls, List.countP_append, List.countP_cons, Event.isIndexOf, hidx]

theorem rowsFor_eq_zero_iff {w : World} {p : String} :
    rowsFor p w = 0 ↔ lookup w.rows p = none := by
  rw [lookup_eq_none]
  simp [rowsFor, List.countP_eq_zero]

theorem dropIndexDb_world (env : Env) (w : World) :
    (dropIndexDb env w).2
      = { w with trace := w.trace ++ [Event.dropIndexDb, Event.httpDrop (env.http w.httpOps)],
                 httpOps := w.httpOps + 1 } := by
  simp [dropIndexDb, dryIndex, httpDo, World.emit]

theorem fold_other (env : Env) (Force : Bool) (p : String) (hdb : NoDbFault env)
    (hp : p ≠ "") (l : List (String × FileInfo)) :
    ∀ w : World, p ∉ l.map Prod.fst →
      rowsFor p (l.foldl (FirstRun.step env Force) w) = rowsFor p w ∧
      ∃ evs, (l.foldl (FirstRun.step env Force) w).trace = w.trace ++ evs ∧
        indexCalls p evs = 0 := by
  induction l with
  | nil =>
    intro w _
    exact ⟨rfl, [], by simp, rfl⟩
  | cons e l ih =>
    intro w hmem
    simp only [List.map_cons, List.mem_cons, not_or] at hmem
    obtain ⟨hrows, evs1, ht1, hc1⟩ :=
      step_other env Force w e.1 e.2 p hdb hp (fun h => hmem.1 h.symm)
    obtain ⟨hrows2, evs2, ht2, hc2⟩ := ih (FirstRun.step env Force w e) hmem.2
    refine ⟨by rw [List.foldl_cons, hrows2, hrows], evs1 ++ evs2, ?_, ?_⟩
    · rw [List.foldl_cons, ht2, ht1, List.append_assoc]
    · simp only [indexCalls, List.countP_append] at hc1 hc2 ⊢
      omega

theorem fold_self (env : Env) (Force : Bool) (p : String) (hdb : NoDbFault env)
    (l : List (String × FileInfo)) :
    ∀ w : World, (l.map Prod.fst).Nodup → (∀ e ∈ l, Readable env e.1) → p ∈ l.map Prod.fst →
      lookup w.rows p = none →
      rowsFor p (l.foldl (FirstRun.step env Force) w) = 1 ∧
      ∃ evs, (l.foldl (FirstRun.step env Force) w).trace = w.trace ++ evs ∧
        indexCalls p evs = 1 := by
  induction l with
  | nil =>
    intro w _ _ hmem
    simp at hmem
  | cons e l ih =>
    intro w hnd hread hmem hnew
    simp only [List.map_cons, List.nodup_cons] at hnd
    have hpr : Readable env p := by
      obtain ⟨e1, he1, rfl⟩ := List.mem_map.mp hmem
      exact hread e1 he1
    by_cases he : e.1 = p
    · obtain ⟨hrows, evs1, ht1, hc1⟩ := step_self env Force w p e.2 hdb hpr (Or.inr hnew)
      have hee : e = (p, e.2) := by rw [← he]
      rw [← hee] at hrows ht1
      obtain ⟨hrows2, evs2, ht2, hc2⟩ :=
        fold_other env Force p hdb hpr.ne_empty l (FirstRun.step env Force w e)
          (by rw [← he]; exact hnd.1)
      refine ⟨by rw [List.foldl_cons, hrows2, hrows hnew], evs1 ++ evs2, ?_, ?_⟩
      · rw [List.foldl_cons, ht2, ht1, List.append_assoc]
      · simp only [indexCalls, List.countP_append] at hc1 hc2 ⊢
        omega
    · obtain ⟨hrows, evs1, ht1, hc1⟩ :=
        step_other env Force w e.1 e.2 p hdb hpr.ne_empty he
      have hmem2 : p ∈ l.map Prod.fst := by
        simp only [List.map_cons, List.mem_cons] at hmem
        rcases hmem with h | h
        · exact absurd h.symm he
        · exact h
      have hnew2 : lookup (FirstRun.step env Force w e).rows p = none := by
        rw [← rowsFor_eq_zero_iff, hrows, rowsFor_eq_zero_iff]
        exact hnew
      obtain ⟨hrows2, evs2, ht2, hc2⟩ := ih (FirstRun.step env Force w e) hnd.2
        (fun e1 he1 => hread e1 (List.mem_cons_of_mem _ he1)) hmem2 hnew2
      refine ⟨by rw [List.foldl_cons, hrows2], evs1 ++ evs2, ?_, ?_⟩
      · rw [List.foldl_cons, ht2, ht1, List.append_assoc]
      · simp only [indexCalls, List.countP_append] at hc1 hc2 ⊢
        omega

/-- C1. Start-up reconciliation, new paths: when every store operation succeeds and every
watched file is readable, a watched path without a store record before `FirstRun` has exactly
one store record after it, and exactly one call of `indexDoc` for that path was made during
the pass (forced or not). The snapshot is a map: each path occurs once. -/
theorem FirstRun_new_path_inserted_and_indexed_once (env : Env) (Force : Bool)
    (snap : List (String × FileInfo)) (w : World) (p : String)
    (hdb : NoDbFault env)
    (hsnap : (snap.map Prod.fst).Nodup)
    (hread : ∀ e ∈ snap, Readable env e.1)
    (hp : p ∈ snap.map Prod.fst)
    (hnew : ∀ r ∈ w.rows, r.path ≠ p) :
    rowsFor p (FirstRun env Force snap w) = 1 ∧
    ∃ evs, (FirstRun env Force snap w).trace = w.trace ++ evs ∧ indexCalls p evs = 1 := by
  have hl : lookup w.rows p = none := lookup_eq_none.mpr hnew
  unfold FirstRun
  cases Force
  · simp only [Bool.false_eq_true, if_false]
    exact fold_self env false p hdb snap w hsnap hread hp hl
  · simp only [if_true, dropIndexDb_world]
    obtain ⟨hrows, evs, ht, hc⟩ := fold_self env true p hdb snap
      { w with trace := w.trace ++ [Event.dropIndexDb, Event.httpDrop (env.http w.httpOps)],
               httpOps := w.httpOps + 1 } hsnap hread hp hl
    refine ⟨hrows, [Event.dropIndexDb, Event.httpDrop (env.http w.httpOps)] ++ evs,
      by rw [ht, List.append_assoc], ?_⟩
    simp only [indexCalls, List.countP_append] at hc ⊢
    simp [List.countP_cons, Event.isIndexOf, hc]

theorem demoEnv_noDbFault : NoDbFault demoEnv := fun _ => rfl

theorem demoEnv_readable_a : Readable demoEnv "md/a.md" :=
  ⟨⟨some ⟨⟨100, 7⟩⟩, some "hello"⟩, ⟨⟨100, 7⟩⟩, "hello", by decide, rfl, rfl⟩

theorem demoEnv_readable_b : Readable demoEnv "md/b.md" :=
  ⟨⟨some ⟨⟨200, 9⟩⟩, some "world"⟩, ⟨⟨200, 9⟩⟩, "world", by decide, rfl, rfl⟩

theorem demoSnap_readable : ∀ e ∈ demoSnap, Readable demoEnv e.1 := by
  intro e he
  simp only [demoSnap, List.mem_cons, List.mem_singleton, List.not_mem_nil, or_false] at he
  rcases he with rfl | rfl
  · exact demoEnv_readable_a
  · exact demoEnv_readable_b

/-- Witness for C1: the untracked `md/b.md` of the demo snapshot. -/
theorem FirstRun_new_path_inserted_and_indexed_once_witness :
    rowsFor "md/b.md" (FirstRun demoEnv false demoSnap demoWorld) = 1 ∧
    ∃ evs, (FirstRun demoEnv false demoSnap demoWorld).trace = demoWorld.trace ++ evs ∧
      indexCalls "md/b.md" evs = 1 :=
  FirstRun_new_path_inserted_and_indexed_once demoEnv false demoSnap demoWorld "md/b.md"
    demoEnv_noDbFault (by decide) demoSnap_readable (by decide) (by decide)

/-! ## Idempotence of the start-up pass -/

theorem foldl_max_ge (rows : List Row) :
    ∀ m : Int, m ≤ rows.foldl (fun m r => max m r.id) m ∧
      ∀ r ∈ rows, r.id ≤ rows.foldl (fun m r => max m r.id) m := by
  induction rows with
  | nil => intro m; simp
  | cons r rs ih =>
    intro m
    obtain ⟨h1, h2⟩ := ih (max m r.id)
    refine ⟨le_trans (le_max_left _ _) h1, ?_⟩
    intro r' hr'
    simp only [List.mem_cons] at hr'
    rcases hr' with rfl | hr'
    · exact le_trans (le_max_right _ _) h1
    · exact h2 r' hr'

theorem lt_nextId (w : World) : ∀ r ∈ w.rows, r.id < nextId w := by
  intro r hr
  have := (foldl_max_ge w.rows w.seq).2 r hr
  unfold nextId
  omega

theorem lookup_update (rows : List Row) (p : String) (k : Int) (m : String) (t : Time) :
    lookup (rows.map (fun r => if r.id = k then { r with md5sum := m, modtime := t } else r)) p
      = (lookup rows p).map
          (fun r => if r.id = k then { r with md5sum := m, modtime := t } else r) := by
  induction rows with
  | nil => rfl
  | cons r rs ih =>
    simp only [lookup] at ih ⊢
    by_cases hp : r.path = p <;> by_cases hk : r.id = k <;>
      simp [List.find?_cons, hp, hk, ih]

theorem lookup_append_some (rows : List Row) (extra : List Row) (p : String) (r : Row)
    (h : lookup rows p = some r) : lookup (rows ++ extra) p = some r := by
  simp only [lookup] at h ⊢
  simp [List.find?_append, h]

theorem lookup_append_none (rows : List Row) (x : Row) (p : String)
    (h : lookup rows p = none) : lookup (rows ++ [x]) p = if x.path = p then some x else none := by
  simp only [lookup] at h ⊢
  by_cases hx : x.path = p <;> simp [List.find?_append, h, hx]

theorem ids_update (rows : List Row) (k : Int) (m : String) (t : Time) :
    (rows.map (fun r => if r.id = k then { r with md5sum := m, modtime := t } else r)).map Row.id
      = rows.map Row.id := by
  induction rows with
  | nil => rfl
  | cons r rs ih =>
    simp only [List.map_cons, ih]
    by_cases hk : r.id = k <;> simp [hk]

theorem step_synced (env : Env) (w : World) (e : String × FileInfo)
    (hdb : NoDbFault env) (h : Synced env w e) :
    FirstRun.step env false w e = (w.emit (Event.find e.1)).tick := by
  obtain ⟨r, hl, hc⟩ := h
  unfold FirstRun.step
  simp only [Find_ok env e.1 w (hdb _), hl, Option.map_some', Bool.false_eq_true, if_false, hc]

theorem step_rows (env : Env) (w : World) (q : String) (f : FileInfo) (hdb : NoDbFault env) :
    (FirstRun.step env false w (q, f)).rows
      = match lookup w.rows q with
        | none => w.rows ++ [⟨nextId w, (NewDocument env q).Path, (NewDocument env q).Md5sum,
                              (NewDocument env q).ModTime⟩]
        | some r =>
          if (r.scan env).Compare (NewDocumentByFileinfo env q f) then
            w.rows.map (fun x =>
              if x.id = r.id then
                { x with md5sum := md5sum env q, modtime := f.ModTime }
              else x)
          else w.rows := by
  unfold FirstRun.step
  simp only [Find_ok env q w (hdb _)]
  cases hl : lookup w.rows q with
  | none =>
    simp only [Option.map_none']
    rw [AddArticle_ok env q _ (hdb _)]
    simp [World.emit, World.tick, nextId]
  | some r =>
    simp only [Option.map_some', Bool.false_eq_true, if_false]
    by_cases hc : (r.scan env).Compare (NewDocumentByFileinfo env q f) = true
    · simp only [hc, if_true, Update_ok env _ _ (hdb _), indexDoc_world]
      simp [World.emit, World.tick, Row.scan, NewDocumentByFileinfo]
    · simp only [hc, if_false]
      simp [World.emit, World.tick]

theorem step_ids (env : Env) (w : World) (e : String × FileInfo) (hdb : NoDbFault env)
    (hids : (w.rows.map Row.id).Nodup) :
    ((FirstRun.step env false w e).rows.map Row.id).Nodup := by
  obtain ⟨q, f⟩ := e
  rw [step_rows env w q f hdb]
  cases hl : lookup w.rows q with
  | none =>
    simp only [List.map_append, List.map_cons, List.map_nil]
    rw [List.nodup_append]
    refine ⟨hids, List.nodup_singleton _, ?_⟩
    intro a ha hb
    simp only [List.mem_singleton] at hb
    obtain ⟨r, hr, rfl⟩ := List.mem_map.mp ha
    have := lt_nextId w r hr
    omega
  | some r =>
    simp only
    split
    · rw [ids_update]; exact hids
    · exact hids

theorem step_makes_synced (env : Env) (w : World) (q : String) (f : FileInfo)
    (hdb : NoDbFault env) (hscan : ∀ t, (env.scanTime t).Unix = t.Unix)
    (hr : Readable env q)
    (hfresh : ∀ file finfo, osOpen env q = some file → file.stat = some finfo →
      finfo.ModTime.Unix = f.ModTime.Unix) :
    Synced env (FirstRun.step env false w (q, f)) (q, f) := by
  unfold Synced
  rw [step_rows env w q f hdb]
  cases hl : lookup w.rows q with
  | none =>
    obtain ⟨file, fi, c, ho, hs, hd⟩ := hr
    have hnd : NewDocument env q = ⟨0, q, md5sum env q, fi.ModTime⟩ := by
      simp [NewDocument, ho, hs]
    refine ⟨⟨nextId w, q, md5sum env q, fi.ModTime⟩,
      by simp only [lookup_append_none _ _ _ hl, hnd, if_true], ?_⟩
    have := hfresh file fi ho hs
    simp [Document.Compare, Row.scan, NewDocumentByFileinfo, hscan, this]
  | some r =>
    simp only
    by_cases hc : (r.scan env).Compare (NewDocumentByFileinfo env q f) = true
    · simp only [hc, if_true, lookup_update, hl, Option.map_some']
      refine ⟨_, rfl, ?_⟩
      simp [Document.Compare, Row.scan, NewDocumentByFileinfo, hscan]
    · simp only [hc, Bool.false_eq_true, if_false]
      exact ⟨r, hl, by simpa using hc⟩

theorem step_keeps_synced (env : Env) (w : World) (q : String) (f : FileInfo)
    (e : String × FileInfo) (hdb : NoDbFault env) (hids : (w.rows.map Row.id).Nodup)
    (hne : e.1 ≠ q) (h : Synced env w e) :
    Synced env (FirstRun.step env false w (q, f)) e := by
  obtain ⟨r1, hl1, hc1⟩ := h
  unfold Synced
  rw [step_rows env w q f hdb]
  cases hl : lookup w.rows q with
  | none => exact ⟨r1, lookup_append_some _ _ _ _ hl1, hc1⟩
  | some r =>
    simp only
    split
    · have hid : r1.id ≠ r.id := by
        intro hid
        have := List.inj_on_of_nodup_map hids (lookup_mem hl1) (lookup_mem hl) hid
        rw [this] at hl1
        exact hne ((lookup_path hl1).symm.trans (lookup_path hl))
      refine ⟨r1, ?_, hc1⟩
      rw [lookup_update, hl1]
      simp [hid]
    · exact ⟨r1, hl1, hc1⟩

theorem fold_ids (env : Env) (hdb : NoDbFault env) (l : List (String × FileInfo)) :
    ∀ w : World, (w.rows.map Row.id).Nodup →
      ((l.foldl (FirstRun.step env false) w).rows.map Row.id).Nodup := by
  induction l with
  | nil => intro w h; exact h
  | cons e l ih =>
    intro w h
    exact ih _ (step_ids env w e hdb h)

theorem fold_keeps_synced (env : Env) (hdb : NoDbFault env) (e : String × FileInfo)
    (l : List (String × FileInfo)) :
    ∀ w : World, e.1 ∉ l.map Prod.fst → (w.rows.map Row.id).Nodup → Synced env w e →
      Synced env (l.foldl (FirstRun.step env false) w) e := by
  induction l with
  | nil => intro w _ _ h; exact h
  | cons e0 l ih =>
    intro w hmem hids h
    simp only [List.map_cons, List.mem_cons, not_or] at hmem
    exact ih _ hmem.2 (step_ids env w e0 hdb hids)
      (step_keeps_synced env w e0.1 e0.2 e hdb hids hmem.1 h)

theorem fold_syncs (env : Env) (hdb : NoDbFault env)
    (hscan : ∀ t, (env.scanTime t).Unix = t.Unix) (l : List (String × FileInfo)) :
    ∀ w : World, (l.map Prod.fst).Nodup → (w.rows.map Row.id).Nodup →
      (∀ e ∈ l, Readable env e.1) → SnapshotFresh env l →
      ∀ e ∈ l, Synced env (l.foldl (FirstRun.step env false) w) e := by
  induction l with
  | nil => intro w _ _ _ _ e he; simp at he
  | cons e0 l ih =>
    intro w hnd hids hread hfresh e he
    simp only [List.map_cons, List.nodup_cons] at hnd
    simp only [List.mem_cons] at he
    rcases he with rfl | he
    · exact fold_keeps_synced env hdb e l _ hnd.1 (step_ids env w e hdb hids)
        (step_makes_synced env w e.1 e.2 hdb hscan (hread e (List.mem_cons_self _ _))
          (hfresh e (List.mem_cons_self _ _)))
    · exact ih _ hnd.2 (step_ids env w e0 hdb hids)
        (fun e1 he1 => hread e1 (List.mem_cons_of_mem _ he1))
        (fun e1 he1 => hfresh e1 (List.mem_cons_of_mem _ he1)) e he

theorem fold_noop (env : Env) (hdb : NoDbFault env) (l : List (String × FileInfo)) :
    ∀ w : World, (∀ e ∈ l, Synced env w e) →
      l.foldl (FirstRun.step env false) w
        = { w with dbOps := w.dbOps + l.length,
                   trace := w.trace ++ l.map (fun e => Event.find e.1) } := by
  induction l with
  | nil => intro w _; simp
  | cons e0 l ih =>
    intro w h
    rw [List.foldl_cons, step_synced env w e0 hdb (h e0 (List.mem_cons_self _ _))]
    rw [ih ((w.emit (Event.find e0.1)).tick) (fun e he => h e (List.mem_cons_of_mem _ he))]
    simp [World.emit, World.tick]
    omega

/-- C2, as amended. Reconciliation is idempotent: with the force flag unset, when every store
operation succeeds, every watched file is readable, the store returns the modification
second it was given and the snapshot records, to the second, the modification time each file
has on disk, a second `FirstRun` on the same snapshot leaves the table as the first run left
it and emits only lookups: no call of `Insert`, `Update` or `Delete` and no downstream push.
The snapshot is a map (each path once) and `id` is the primary key of the table (row ids
are distinct). -/
theorem FirstRun_twice_no_write_no_push (env : Env) (snap : List (String × FileInfo))
    (w : World)
    (hdb : NoDbFault env)
    (hscan : ∀ t, (env.scanTime t).Unix = t.Unix)
    (hsnap : (snap.map Prod.fst).Nodup)
    (hread : ∀ e ∈ snap, Readable env e.1)
    (hfresh : SnapshotFresh env snap)
    (hids : (w.rows.map Row.id).Nodup) :
    (FirstRun env false snap (FirstRun env false snap w)).rows
        = (FirstRun env false snap w).rows ∧
    (FirstRun env false snap (FirstRun env false snap w)).seq
        = (FirstRun env false snap w).seq ∧
    ∃ evs, (FirstRun env false snap (FirstRun env false snap w)).trace
        = (FirstRun env false snap w).trace ++ evs ∧
      ∀ e ∈ evs, e.isStoreWrite = false ∧ e.isPush = false := by
  have hs := fold_syncs env hdb hscan snap w hsnap hids hread hfresh
  have h2 := fold_noop env hdb snap (snap.foldl (FirstRun.step env false) w) hs
  simp only [FirstRun, Bool.false_eq_true, if_false]
  rw [h2]
  refine ⟨rfl, rfl, _, rfl, ?_⟩
  intro e he
  obtain ⟨x, _, rfl⟩ := List.mem_map.mp he
  exact ⟨rfl, rfl⟩

/-! ## The forced pass -/

theorem indexEvents_shape (env : Env) (d : Document) (w : World) :
    (∀ x ∈ indexEvents env d w, x.isFind = false ∧ x.isDrop = false) ∧
    (indexEvents env d w).countP Event.isIndexCall = 1 := by
  unfold indexEvents
  cases osReadFile env d.Path <;>
    simp [Event.isDrop, Event.isFind, Event.isIndexCall, List.countP_cons]

theorem step_force_segment (env : Env) (w : World) (e : String × FileInfo)
    (hdb : NoDbFault env) :
    ∃ seg, (FirstRun.step env true w e).trace = w.trace ++ seg ∧ ForcedSegment env e seg := by
  obtain ⟨q, f⟩ := e
  unfold FirstRun.step ForcedSegment
  simp only [Find_ok env q w (hdb _)]
  cases hl : lookup w.rows q with
  | none =>
    simp only [Option.map_none']
    rw [AddArticle_ok env q _ (hdb _)]
    refine ⟨_, by simp [World.emit, World.tick]; rfl, _, rfl, ?_, ?_, ?_⟩
    · intro x hx
      simp only [List.mem_cons] at hx
      rcases hx with rfl | hx
      · exact ⟨rfl, rfl⟩
      · exact (indexEvents_shape _ _ _).1 x hx
    · have := (indexEvents_shape env
        { NewDocument env q with Id := nextId ((w.emit (Event.find q)).tick) }
        ((w.emit (Event.find q)).tick)).2
      simp [List.countP_cons, Event.isIndexCall]
      exact this
    · intro hr
      obtain ⟨fi, hnd, _, _⟩ := NewDocument_readable env q hr
      have := indexCalls_indexEvents env
        { NewDocument env q with Id := nextId ((w.emit (Event.find q)).tick) }
        ((w.emit (Event.find q)).tick) q
      simp only [hnd, if_true] at this
      simp only [indexCalls] at this
      simp [indexCalls, List.countP_cons, Event.isIndexOf, hnd]
      exact this
  | some r =>
    have hrp : (r.scan env).Path = q := by
      simp only [Row.scan]
      exact lookup_path hl
    have hidx : ∀ w1 : World, indexCalls q (indexEvents env (r.scan env) w1) = 1 := by
      intro w1
      rw [indexCalls_indexEvents]
      simp [hrp]
    simp only [indexCalls] at hidx
    simp only [Option.map_some', if_true, indexDoc_world]
    by_cases hc : (r.scan env).Compare (NewDocumentByFileinfo env q f) = true
    · simp only [hc, if_true, Update_ok env _ _ (hdb _)]
      refine ⟨_, by simp [World.emit, World.tick]; rfl, _, rfl, ?_, ?_, ?_⟩
      · intro x hx
        simp only [List.mem_cons] at hx
        rcases hx with rfl | hx
        · exact ⟨rfl, rfl⟩
        · exact (indexEvents_shape _ _ _).1 x hx
      · simp [List.countP_cons, Event.isIndexCall, (indexEvents_shape _ _ _).2]
      · intro _
        simp [indexCalls, List.countP_cons, Event.isIndexOf, hidx]
    · simp only [hc, if_false]
      refine ⟨_, by simp [World.emit, World.tick]; rfl, _, rfl, ?_, ?_, ?_⟩
      · intro x hx
        exact (indexEvents_shape _ _ _).1 x hx
      · exact (indexEvents_shape _ _ _).2
      · intro _
        exact hidx _

theorem fold_force_segments (env : Env) (hdb : NoDbFault env)
    (l : List (String × FileInfo)) :
    ∀ w : World, ∃ segs : List (List Event),
      (l.foldl (FirstRun.step env true) w).trace = w.trace ++ segs.flatten ∧
      List.Forall₂ (ForcedSegment env) l segs := by
  induction l with
  | nil => intro w; exact ⟨[], by simp, List.Forall₂.nil⟩
  | cons e l ih =>
    intro w
    obtain ⟨seg, ht1, h1⟩ := step_force_segment env w e hdb
    obtain ⟨segs, ht2, h2⟩ := ih (FirstRun.step env true w e)
    exact ⟨seg :: segs, by rw [List.foldl_cons, ht2, ht1, List.flatten_cons, List.append_assoc],
      List.Forall₂.cons h1 h2⟩

/-! ## Watcher events -/

theorem removeDoc_some (env : Env) (d : Document) (w : World) :
    removeDoc env (some d) w
      = Res.ok (isOK (env.http w.httpOps))
          { w with trace := w.trace ++ [Event.removeDoc (some d),
                                         Event.httpRemove d.Id (env.http w.httpOps)],
                   httpOps := w.httpOps + 1 } := by
  simp [removeDoc, dryIndex, httpDo, World.emit]

theorem DelArticle_tracked (env : Env) (path : String) (w : World) (r : Row)
    (hdb : NoDbFault env) (hl : lookup w.rows path = some r) :
    DelArticle env path w
      = Res.ok ()
          { rows := w.rows.filter (fun x => !decide (x.path = path)),
            seq := w.seq,
            dbOps := w.dbOps + 2,
            httpOps := w.httpOps + 1,
            trace := w.trace ++ [Event.find path, Event.delete path,
              Event.removeDoc (some (r.scan env)),
              Event.httpRemove r.id (env.http w.httpOps)] } := by
  unfold DelArticle
  simp only [Find_ok env path w (hdb _), hl, Option.map_some', Delete_ok env path _ (hdb _),
    removeDoc_some]
  simp [World.emit, World.tick, Row.scan]

/-- C4, as amended. Move semantics: when every store operation succeeds, the lookup of `old`
yields the record `r` and the file at `new` is readable, a Move event and a Rename event
`old -> new` are handled identically and return normally; the handler deletes the rows of
`old`, issues one Remove push whose request carries `r.id`, then inserts a row for `new`
under a fresh id `k` and issues one Index push whose request carries `k`, the content of the
file and its digest. -/
theorem Move_and_Rename_remove_old_then_index_new (env : Env) (old new : String) (w : World)
    (r : Row)
    (hdb : NoDbFault env)
    (hold : lookup w.rows old = some r)
    (hnew : Readable env new) :
    ∃ (w1 : World) (f : File) (finfo : FileInfo) (content : String) (k : Int)
      (doc : Document),
      Run.dispatch env ⟨Op.Move, new, old⟩ w = Res.ok () w1 ∧
      Run.dispatch env ⟨Op.Rename, new, old⟩ w = Res.ok () w1 ∧
      osOpen env new = some f ∧ f.stat = some finfo ∧ f.data = some content ∧
      doc = ⟨k, new, env.md5hex content, finfo.ModTime⟩ ∧
      (∀ x ∈ w.rows.filter (fun x => !decide (x.path = old)), x.id ≠ k) ∧
      w1.rows = w.rows.filter (fun x => !decide (x.path = old))
                  ++ [⟨k, new, env.md5hex content, finfo.ModTime⟩] ∧
      w1.trace = w.trace ++
        [Event.find old, Event.delete old,
         Event.removeDoc (some ⟨r.id, r.path, r.md5sum, env.scanTime r.modtime⟩),
         Event.httpRemove r.id (env.http w.httpOps),
         Event.insert ⟨0, new, env.md5hex content, finfo.ModTime⟩,
         Event.indexDoc doc,
         Event.httpIndex
           ⟨k, content, ⟨doc.RelativePath env.MdDir, doc.Title, env.md5hex content⟩, 0⟩
           (env.http (w.httpOps + 1))] := by
  obtain ⟨f, fi, c, ho, hs, hd⟩ := hnew
  have hmd : md5sum env new = env.md5hex c := by simp [md5sum, ho, hd]
  have hnd : NewDocument env new = ⟨0, new, env.md5hex c, fi.ModTime⟩ := by
    simp [NewDocument, ho, hs, hmd]
  have hrf : osReadFile env new = some c := by simp [osReadFile, ho, hd]
  have hdel := DelArticle_tracked env old w r hdb hold
  refine ⟨AddArticle env new
      { rows := w.rows.filter (fun x => !decide (x.path = old)), seq := w.seq,
        dbOps := w.dbOps + 2, httpOps := w.httpOps + 1,
        trace := w.trace ++ [Event.find old, Event.delete old,
          Event.removeDoc (some (r.scan env)), Event.httpRemove r.id (env.http w.httpOps)] },
    f, fi, c, nextId { w with rows := w.rows.filter (fun x => !decide (x.path = old)) }, _,
    ?_, ?_, ho, hs, hd, rfl, ?_, ?_, ?_⟩
  · simp only [Run.dispatch, MoveArticle, hdel]
  · simp only [Run.dispatch, MoveArticle, hdel]
  · intro x hx
    exact ne_of_lt
      (lt_nextId { w with rows := w.rows.filter (fun x => !decide (x.path = old)) } x hx)
  · rw [AddArticle_ok env new _ (hdb _), hnd]
    simp [nextId]
  · rw [AddArticle_ok env new _ (hdb _), hnd]
    simp [nextId, indexEvents, hrf, article, Row.scan]

/-! ## Witnesses on the concrete environment -/

theorem demoEnv_scan : ∀ t, (demoEnv.scanTime t).Unix = t.Unix := fun _ => rfl

theorem demoSnap_fresh : SnapshotFresh demoEnv demoSnap := by
  intro e he f fi ho hs
  simp only [demoSnap, List.mem_cons, List.mem_singleton, List.not_mem_nil, or_false] at he
  rcases he with rfl | rfl
  · have h : osOpen demoEnv "md/a.md" = some ⟨some ⟨⟨100, 7⟩⟩, some "hello"⟩ := by decide
    rw [h] at ho
    cases ho
    cases hs
    rfl
  · have h : osOpen demoEnv "md/b.md" = some ⟨some ⟨⟨200, 9⟩⟩, some "world"⟩ := by decide
    rw [h] at ho
    cases ho
    cases hs
    rfl

/-- Witness for C2: the demo snapshot on the demo store. -/
theorem FirstRun_twice_no_write_no_push_witness :
    (FirstRun demoEnv false demoSnap (FirstRun demoEnv false demoSnap demoWorld)).rows
        = (FirstRun demoEnv false demoSnap demoWorld).rows ∧
    (FirstRun demoEnv false demoSnap (FirstRun demoEnv false demoSnap demoWorld)).seq
        = (FirstRun demoEnv false demoSnap demoWorld).seq ∧
    ∃ evs, (FirstRun demoEnv false demoSnap (FirstRun demoEnv false demoSnap demoWorld)).trace
        = (FirstRun demoEnv false demoSnap demoWorld).trace ++ evs ∧
      ∀ e ∈ evs, e.isStoreWrite = false ∧ e.isPush = false :=
  FirstRun_twice_no_write_no_push demoEnv demoSnap demoWorld demoEnv_noDbFault demoEnv_scan
    (by decide) demoSnap_readable demoSnap_fresh (by decide)

/-- Witness for C4: `md/a.md`, tracked under id 1, is moved to `md/b.md`. -/
theorem Move_and_Rename_remove_old_then_index_new_witness :
    ∃ (w1 : World) (f : File) (finfo : FileInfo) (content : String) (k : Int)
      (doc : Document),
      Run.dispatch demoEnv ⟨Op.Move, "md/b.md", "md/a.md"⟩ demoWorld = Res.ok () w1 ∧
      Run.dispatch demoEnv ⟨Op.Rename, "md/b.md", "md/a.md"⟩ demoWorld = Res.ok () w1 ∧
      osOpen demoEnv "md/b.md" = some f ∧ f.stat = some finfo ∧ f.data = some content ∧
      doc = ⟨k, "md/b.md", demoEnv.md5hex content, finfo.ModTime⟩ ∧
      (∀ x ∈ demoWorld.rows.filter (fun x => !decide (x.path = "md/a.md")), x.id ≠ k) ∧
      w1.rows = demoWorld.rows.filter (fun x => !decide (x.path = "md/a.md"))
                  ++ [⟨k, "md/b.md", demoEnv.md5hex content, finfo.ModTime⟩] ∧
      w1.trace = demoWorld.trace ++
        [Event.find "md/a.md", Event.delete "md/a.md",
         Event.removeDoc (some ⟨1, "md/a.md", "#old", demoEnv.scanTime ⟨50, 0⟩⟩),
         Event.httpRemove 1 (demoEnv.http demoWorld.httpOps),
         Event.insert ⟨0, "md/b.md", demoEnv.md5hex content, finfo.ModTime⟩,
         Event.indexDoc doc,
         Event.httpIndex
           ⟨k, content, ⟨doc.RelativePath demoEnv.MdDir, doc.Title, demoEnv.md5hex content⟩, 0⟩
           (demoEnv.http (demoWorld.httpOps + 1))] :=
  Move_and_Rename_remove_old_then_index_new demoEnv "md/a.md" "md/b.md" demoWorld
    ⟨1, "md/a.md", "#old", ⟨50, 0⟩⟩ demoEnv_noDbFault (by decide) demoEnv_readable_b

/-! ## Write and Remove events on tracked files -/

/-- C5, as amended. Write event on a changed tracked file: when every store operation
succeeds, the lookup of the path yields the record `r`, the file is readable and `Compare`
reports a change, `UpdateArticle` returns normally, keeps the ids and paths of all rows,
leaves the record of the path under the id `r.id` holding the digest of the file content and
the modification time of the file, and issues exactly one Index push, whose request carries
`r.id`, the content of the file and its digest. -/
theorem Write_changed_tracked_updates_and_indexes (env : Env) (path oldPath : String)
    (w : World) (r : Row)
    (hdb : NoDbFault env)
    (hl : lookup w.rows path = some r)
    (hread : Readable env path)
    (hchanged : (r.scan env).Compare (NewDocument env path) = true) :
    ∃ (w1 : World) (f : File) (finfo : FileInfo) (content : String) (doc : Document),
      Run.dispatch env ⟨Op.Write, path, oldPath⟩ w = Res.ok () w1 ∧
      osOpen env path = some f ∧ f.stat = some finfo ∧ f.data = some content ∧
      doc = ⟨r.id, path, env.md5hex content, finfo.ModTime⟩ ∧
      w1.rows.map (fun x => (x.id, x.path)) = w.rows.map (fun x => (x.id, x.path)) ∧
      lookup w1.rows path = some ⟨r.id, path, env.md5hex content, finfo.ModTime⟩ ∧
      w1.trace = w.trace ++
        [Event.find path, Event.update doc, Event.indexDoc doc,
         Event.httpIndex
           ⟨r.id, content, ⟨doc.RelativePath env.MdDir, doc.Title, env.md5hex content⟩, 0⟩
           (env.http w.httpOps)] := by
  obtain ⟨f, fi, c, ho, hs, hd⟩ := hread
  have hmd : md5sum env path = env.md5hex c := by simp [md5sum, ho, hd]
  have hnd : NewDocument env path = ⟨0, path, env.md5hex c, fi.ModTime⟩ := by
    simp [NewDocument, ho, hs, hmd]
  have hrf : osReadFile env path = some c := by simp [osReadFile, ho, hd]
  have hrid : (r.scan env).Id = r.id := rfl
  rw [hnd] at hchanged
  refine ⟨{ rows := w.rows.map (fun x =>
                if x.id = r.id then { x with md5sum := env.md5hex c, modtime := fi.ModTime }
                else x),
            seq := w.seq, dbOps := w.dbOps + 2, httpOps := w.httpOps + 1,
            trace := w.trace ++
              [Event.find path, Event.update ⟨r.id, path, env.md5hex c, fi.ModTime⟩,
               Event.indexDoc ⟨r.id, path, env.md5hex c, fi.ModTime⟩,
               Event.httpIndex (article env ⟨r.id, path, env.md5hex c, fi.ModTime⟩ c)
                 (env.http w.httpOps)] },
    f, fi, c, _, ?_, ho, hs, hd, rfl, ?_, ?_, rfl⟩
  · simp only [Run.dispatch, UpdateArticle, Find_ok env path w (hdb _), hl, Option.map_some',
      hnd, hchanged, if_true, Update_ok env _ _ (hdb _), indexDoc_world, hrid]
    simp [World.emit, World.tick, indexEvents, hrf]
  · simp only [List.map_map]
    apply List.map_congr_left
    intro x _
    by_cases hx : x.id = r.id <;> simp [hx]
  · simp only []
    rw [lookup_update, hl]
    simp [lookup_path hl]

/-- Witness for C5: `md/a.md` is tracked with an outdated digest. -/
theorem Write_changed_tracked_updates_and_indexes_witness :
    ∃ (w1 : World) (f : File) (finfo : FileInfo) (content : String) (doc : Document),
      Run.dispatch demoEnv ⟨Op.Write, "md/a.md", ""⟩ demoWorld = Res.ok () w1 ∧
      osOpen demoEnv "md/a.md" = some f ∧ f.stat = some finfo ∧ f.data = some content ∧
      doc = ⟨1, "md/a.md", demoEnv.md5hex content, finfo.ModTime⟩ ∧
      w1.rows.map (fun x => (x.id, x.path)) = demoWorld.rows.map (fun x => (x.id, x.path)) ∧
      lookup w1.rows "md/a.md" = some ⟨1, "md/a.md", demoEnv.md5hex content, finfo.ModTime⟩ ∧
      w1.trace = demoWorld.trace ++
        [Event.find "md/a.md", Event.update doc, Event.indexDoc doc,
         Event.httpIndex
           ⟨1, content, ⟨doc.RelativePath demoEnv.MdDir, doc.Title, demoEnv.md5hex content⟩, 0⟩
           (demoEnv.http demoWorld.httpOps)] :=
  Write_changed_tracked_updates_and_indexes demoEnv "md/a.md" "" demoWorld
    ⟨1, "md/a.md", "#old", ⟨50, 0⟩⟩ demoEnv_noDbFault (by decide) demoEnv_readable_a
    (by decide)

/-- C7. Remove event on a tracked file: when every store operation succeeds and the lookup of
the path yields the record `r`, `DelArticle` returns normally, deletes every row of the path,
issues exactly one Remove push, carrying `r.id`, and a following `Find` of the path reports
no record. -/
theorem Remove_tracked_deletes_and_pushes_remove (env : Env) (path oldPath : String)
    (w : World) (r : Row)
    (hdb : NoDbFault env)
    (hl : lookup w.rows path = some r) :
    ∃ w1 : World,
      Run.dispatch env ⟨Op.Remove, path, oldPath⟩ w = Res.ok () w1 ∧
      w1.rows = w.rows.filter (fun x => !decide (x.path = path)) ∧
      (∀ x ∈ w1.rows, x.path ≠ path) ∧
      w1.trace = w.trace ++
        [Event.find path, Event.delete path, Event.removeDoc (some (r.scan env)),
         Event.httpRemove r.id (env.http w.httpOps)] ∧
      (Find env path w1).1 = (none, true) := by
  refine ⟨{ rows := w.rows.filter (fun x => !decide (x.path = path)), seq := w.seq,
            dbOps := w.dbOps + 2, httpOps := w.httpOps + 1,
            trace := w.trace ++ [Event.find path, Event.delete path,
              Event.removeDoc (some (r.scan env)),
              Event.httpRemove r.id (env.http w.httpOps)] }, ?_, rfl, ?_, rfl, ?_⟩
  · simp only [Run.dispatch, DelArticle_tracked env path w r hdb hl]
  · intro x hx
    simpa using (List.mem_filter.mp hx).2
  · rw [Find_ok env path _ (hdb _)]
    have : lookup (w.rows.filter (fun x => !decide (x.path = path))) path = none := by
      rw [lookup_eq_none]
      intro x hx
      simpa using (List.mem_filter.mp hx).2
    simp [this]

/-- Witness for C7: `md/a.md` is tracked under id 1. -/
theorem Remove_tracked_deletes_and_pushes_remove_witness :
    ∃ w1 : World,
      Run.dispatch demoEnv ⟨Op.Remove, "md/a.md", ""⟩ demoWorld = Res.ok () w1 ∧
      w1.rows = demoWorld.rows.filter (fun x => !decide (x.path = "md/a.md")) ∧
      (∀ x ∈ w1.rows, x.path ≠ "md/a.md") ∧
      w1.trace = demoWorld.trace ++
        [Event.find "md/a.md", Event.delete "md/a.md",
         Event.removeDoc (some (Row.scan demoEnv ⟨1, "md/a.md", "#old", ⟨50, 0⟩⟩)),
         Event.httpRemove 1 (demoEnv.http demoWorld.httpOps)] ∧
      (Find demoEnv "md/a.md" w1).1 = (none, true) :=
  Remove_tracked_deletes_and_pushes_remove demoEnv "md/a.md" "" demoWorld
    ⟨1, "md/a.md", "#old", ⟨50, 0⟩⟩ demoEnv_noDbFault (by decide)

/-! ## Where the handlers leave the specification -/

theorem UpdateArticle_untracked (env : Env) (path : String) (w : World)
    (hdb : env.dbFault w.dbOps = Fault.ok) (hl : lookup w.rows path = none) :
    UpdateArticle env path w = Res.panic ((w.emit (Event.find path)).tick) := by
  simp only [UpdateArticle, Find_ok env path w hdb, hl, Option.map_none']

theorem DelArticle_untracked (env : Env) (path : String) (w : World)
    (hdb : NoDbFault env) (hl : lookup w.rows path = none) :
    DelArticle env path w
      = Res.panic
          { w with dbOps := w.dbOps + 2,
                   trace := w.trace ++ [Event.find path, Event.delete path,
                     Event.removeDoc none] } := by
  have hf : w.rows.filter (fun x => !decide (x.path = path)) = w.rows := by
    rw [List.filter_eq_self]
    intro x hx
    simpa using lookup_eq_none.mp hl x hx
  simp only [DelArticle, Find_ok env path w (hdb _), hl, Option.map_none',
    Delete_ok env path _ (hdb _), removeDoc, dryIndex, Bool.false_eq_true, if_false]
  simp [World.emit, World.tick, hf]

/-- C6 at the failing input. With an empty store and the readable file `md/a.md`, the Write
event panics right after the lookup (`a.Compare(b)` on the nil `a`), while the Create event
inserts the record and pushes it. -/
theorem Write_untracked_panics_where_Create_inserts :
    Run.dispatch demoEnv ⟨Op.Write, "md/a.md", ""⟩ emptyWorld
      = Res.panic { rows := [], seq := 0, dbOps := 1, httpOps := 0,
                    trace := [Event.find "md/a.md"] } ∧
    Run.dispatch demoEnv ⟨Op.Create, "md/a.md", ""⟩ emptyWorld
      = Res.ok ()
          { rows := [⟨1, "md/a.md", "#hello", ⟨100, 7⟩⟩], seq := 1, dbOps := 1, httpOps := 1,
            trace := [Event.insert ⟨0, "md/a.md", "#hello", ⟨100, 7⟩⟩,
                      Event.indexDoc ⟨1, "md/a.md", "#hello", ⟨100, 7⟩⟩,
                      Event.httpIndex ⟨1, "hello", ⟨"a", "a", "#hello"⟩, 0⟩ (some 200)] } := by
  constructor <;> rfl

/-- C8 at the failing input. With an empty store, the Remove event for `md/a.md` runs the
lookup and the delete and then panics in `removeDoc` on the nil document. -/
theorem Remove_untracked_panics :
    Run.dispatch demoEnv ⟨Op.Remove, "md/a.md", ""⟩ emptyWorld
      = Res.panic { rows := [], seq := 0, dbOps := 2, httpOps := 0,
                    trace := [Event.find "md/a.md", Event.delete "md/a.md",
                              Event.removeDoc none] } := by
  rfl

/-- C9 at the failing input. The file `md/c.md` cannot be opened; the Create event inserts
a row with the empty path and calls `indexDoc` on the empty document, which sends no
request. -/
theorem Create_unreadable_inserts_empty_path :
    osOpen demoEnv "md/c.md" = none ∧
    AddArticle demoEnv "md/c.md" emptyWorld
      = { rows := [⟨1, "", "", Time.zero⟩], seq := 1, dbOps := 1, httpOps := 0,
          trace := [Event.insert ⟨0, "", "", Time.zero⟩,
                    Event.indexDoc ⟨1, "", "", Time.zero⟩] } := by
  constructor <;> rfl

/-- C10 at the failing input. The store holds one record per path and tracks `md/a.md`; the
Create event for `md/a.md` leaves two records with that path. -/
theorem Create_tracked_duplicates_path :
    PathUnique demoWorld ∧
    ∃ w1, Run.dispatch demoEnv ⟨Op.Create, "md/a.md", ""⟩ demoWorld = Res.ok () w1 ∧
      w1.rows = [⟨1, "md/a.md", "#old", ⟨50, 0⟩⟩, ⟨2, "md/a.md", "#hello", ⟨100, 7⟩⟩] ∧
      ¬ PathUnique w1 := by
  refine ⟨by decide, _, rfl, rfl, by decide⟩

/-! ## Comparison of documents -/

/-- C13. `Document.Compare` is true exactly when the digests differ or the modification
times differ in their whole Unix seconds; the nanoseconds within the second do not matter,
the comparison is symmetric and a document never differs from itself. -/
theorem Compare_true_iff_symmetric_irreflexive (a b d : Document) :
    (a.Compare b = true ↔ a.Md5sum ≠ b.Md5sum ∨ a.ModTime.Unix ≠ b.ModTime.Unix) ∧
    (∀ n : Nat, ({ a with ModTime := ⟨a.ModTime.sec, n⟩ } : Document).Compare b = a.Compare b) ∧
    a.Compare b = b.Compare a ∧
    d.Compare d = false := by
  refine ⟨?_, ?_, ?_, ?_⟩
  · simp only [Document.Compare, Bool.or_eq_true, bne_iff_ne]
    exact Or.comm
  · intro n
    rfl
  · rw [Bool.eq_iff_iff]
    simp only [Document.Compare, Bool.or_eq_true, bne_iff_ne]
    constructor <;> rintro (h | h)
    · exact Or.inl (Ne.symm h)
    · exact Or.inr (Ne.symm h)
    · exact Or.inl (Ne.symm h)
    · exact Or.inr (Ne.symm h)
  · simp [Document.Compare]

/-! ## Derived identifiers -/

theorem replaceFirst_root_append (R s : List Char) : replaceFirst R [] (R ++ s) = s := by
  cases R with
  | nil =>
    cases s with
    | nil => simp [replaceFirst]
    | cons c cs => simp [replaceFirst]
  | cons r rs =>
    have h : (r :: rs).isPrefixOf (r :: (rs ++ s)) = true := by
      rw [ List.isPrefixOf_iff_prefix]
      exact List.prefix_append (r :: rs) s
    show replaceFirst (r :: rs) [] (r :: (rs ++ s)) = s
    rw [replaceFirst, if_pos h]
    simp

theorem TrimRight_append_md (rel : String) :
    TrimRight (rel ++ ".md") ".md" = TrimRight rel ".md" := by
  simp [TrimRight, String.toList, List.dropWhile]

/-- What `RelativePath` returns for a path made of the root, a relative name and `.md`:
the relative name without its trailing run of the characters `.`, `m` and `d`. -/
theorem RelativePath_root_rel_md (id : Int) (R rel m : String) (t : Time) :
    (⟨id, R ++ rel ++ ".md", m, t⟩ : Document).RelativePath R = TrimRight rel ".md" := by
  simp only [Document.RelativePath]
  rw [String.append_assoc]
  simp only [String.toList, String.data_append]
  rw [replaceFirst_root_append, ← String.data_append]
  exact TrimRight_append_md rel

/-- C14 at the failing input. For the root `md/` and the relative name `cmd` the path is
`md/cmd.md`; `RelativePath` and `Title` both return `c`, not `cmd`: `strings.TrimRight`
removes every trailing `.`, `m` and `d`, not the suffix `.md`. -/
theorem RelativePath_and_Title_strip_trailing_cutset :
    "md/" ++ "cmd" ++ ".md" = "md/cmd.md" ∧
    (⟨1, "md/cmd.md", "", Time.zero⟩ : Document).RelativePath "md/" = "c" ∧
    (⟨1, "md/cmd.md", "", Time.zero⟩ : Document).Title = "c" := by
  refine ⟨by decide, by decide, by decide⟩

/-! ## Downstream results and the store -/

theorem NewDocument_http (env : Env) (http2 : Nat → Option Nat) (p : String) :
    NewDocument { env with http := http2 } p = NewDocument env p := rfl

theorem NewDocumentByFileinfo_http (env : Env) (http2 : Nat → Option Nat) (p : String)
    (f : FileInfo) :
    NewDocumentByFileinfo { env with http := http2 } p f = NewDocumentByFileinfo env p f := rfl

theorem scan_http (env : Env) (http2 : Nat → Option Nat) (r : Row) :
    Row.scan { env with http := http2 } r = Row.scan env r := rfl

theorem AddArticle_store (env : Env) (http2 : Nat → Option Nat) (path : String)
    (w1 w2 : World) (hw : w1.store = w2.store) :
    (AddArticle env path w1).store = (AddArticle { env with http := http2 } path w2).store := by
  obtain ⟨rows, seq, n, h1, t1⟩ := w1
  obtain ⟨rows2, seq2, n2, h2, t2⟩ := w2
  simp only [World.store, Prod.mk.injEq] at hw
  obtain ⟨rfl, rfl, rfl⟩ := hw
  unfold AddArticle
  cases hf : env.dbFault n <;>
    simp [Insert, hf, indexDoc_world, World.store, World.emit, World.tick, nextId,
      NewDocument_http]

theorem DelArticle_store (env : Env) (http2 : Nat → Option Nat) (path : String)
    (w1 w2 : World) (hw : w1.store = w2.store) :
    (DelArticle env path w1).world.store
        = (DelArticle { env with http := http2 } path w2).world.store ∧
    (DelArticle env path w1).returns
        = (DelArticle { env with http := http2 } path w2).returns := by
  obtain ⟨rows, seq, n, h1, t1⟩ := w1
  obtain ⟨rows2, seq2, n2, h2, t2⟩ := w2
  simp only [World.store, Prod.mk.injEq] at hw
  obtain ⟨rfl, rfl, rfl⟩ := hw
  unfold DelArticle Find
  cases hf1 : env.dbFault n <;> cases hl : lookup rows path <;>
    cases hf2 : env.dbFault (n + 1) <;>
    simp [Delete, hf1, hf2, hl, World.store, World.emit, World.tick, removeDoc, dryIndex,
      httpDo, Res.world, Res.returns]

theorem UpdateArticle_store (env : Env) (http2 : Nat → Option Nat) (path : String)
    (w1 w2 : World) (hw : w1.store = w2.store) :
    (UpdateArticle env path w1).world.store
        = (UpdateArticle { env with http := http2 } path w2).world.store ∧
    (UpdateArticle env path w1).returns
        = (UpdateArticle { env with http := http2 } path w2).returns := by
  obtain ⟨rows, seq, n, h1, t1⟩ := w1
  obtain ⟨rows2, seq2, n2, h2, t2⟩ := w2
  simp only [World.store, Prod.mk.injEq] at hw
  obtain ⟨rfl, rfl, rfl⟩ := hw
  unfold UpdateArticle Find
  cases hf1 : env.dbFault n <;> cases hl : lookup rows path <;>
    simp only [hf1, hl, World.emit, World.tick, Res.world, Res.returns, NewDocument_http,
      scan_http, and_true]
  case ok.some r =>
    by_cases hc : (Row.scan env r).Compare (NewDocument env path) = true
    · cases hf2 : env.dbFault (n + 1) <;>
        simp [hc, Update, hf2, indexDoc_world, World.store, World.emit, World.tick, Res.world,
          Res.returns]
    · simp [hc, World.store, Res.world, Res.returns]
  all_goals first
    | rfl
    | exact AddArticle_store env http2 path _ _ rfl

theorem MoveArticle_store (env : Env) (http2 : Nat → Option Nat) (oldPath path : String)
    (w1 w2 : World) (hw : w1.store = w2.store) :
    (MoveArticle env oldPath path w1).world.store
        = (MoveArticle { env with http := http2 } oldPath path w2).world.store ∧
    (MoveArticle env oldPath path w1).returns
        = (MoveArticle { env with http := http2 } oldPath path w2).returns := by
  obtain ⟨hs, hr⟩ := DelArticle_store env http2 oldPath w1 w2 hw
  unfold MoveArticle
  cases h1 : DelArticle env oldPath w1 <;>
    cases h2 : DelArticle { env with http := http2 } oldPath w2 <;>
    rw [h1, h2] at hs hr <;>
    simp only [Res.world, Res.returns] at hs hr ⊢
  · exact ⟨AddArticle_store env http2 path _ _ hs, trivial⟩
  · exact absurd hr (by simp)
  · exact absurd hr (by simp)
  · exact ⟨hs, trivial⟩

/-- The store state a watcher event leaves, and whether its handler returns, do not depend
on what the search service answers. -/
theorem dispatch_store_independent_of_downstream (env : Env) (http2 : Nat → Option Nat)
    (event : WatcherEvent) (w1 w2 : World) (hw : w1.store = w2.store) :
    (Run.dispatch env event w1).world.store
        = (Run.dispatch { env with http := http2 } event w2).world.store ∧
    (Run.dispatch env event w1).returns
        = (Run.dispatch { env with http := http2 } event w2).returns := by
  unfold Run.dispatch
  cases event.Op
  · exact ⟨AddArticle_store env http2 event.Path w1 w2 hw, rfl⟩
  · exact UpdateArticle_store env http2 event.Path w1 w2 hw
  · exact DelArticle_store env http2 event.Path w1 w2 hw
  · exact MoveArticle_store env http2 event.OldPath event.Path w1 w2 hw
  · exact ⟨hw, rfl⟩
  · exact MoveArticle_store env http2 event.OldPath event.Path w1 w2 hw

/-- C12 at the failing input. With an empty store the Remove event for `md/a.md` panics,
whether the search service answers 200 or cannot be reached, and the loop does not reach the
next event (a Create for the readable `md/b.md`): the store stays empty. The store state is
the same in both runs. -/
theorem Remove_untracked_panics_whatever_downstream_answers :
    (Run.dispatch demoEnv ⟨Op.Remove, "md/a.md", ""⟩ emptyWorld).returns = false ∧
    (Run.dispatch offlineEnv ⟨Op.Remove, "md/a.md", ""⟩ emptyWorld).returns = false ∧
    (Run.dispatch demoEnv ⟨Op.Remove, "md/a.md", ""⟩ emptyWorld).world.store
      = (Run.dispatch offlineEnv ⟨Op.Remove, "md/a.md", ""⟩ emptyWorld).world.store ∧
    Run demoEnv [⟨Op.Remove, "md/a.md", ""⟩, ⟨Op.Create, "md/b.md", ""⟩] emptyWorld
      = Res.panic { rows := [], seq := 0, dbOps := 2, httpOps := 0,
                    trace := [Event.find "md/a.md", Event.delete "md/a.md",
                              Event.removeDoc none] } ∧
    Run offlineEnv [⟨Op.Remove, "md/a.md", ""⟩, ⟨Op.Create, "md/b.md", ""⟩] emptyWorld
      = Res.panic { rows := [], seq := 0, dbOps := 2, httpOps := 0,
                    trace := [Event.find "md/a.md", Event.delete "md/a.md",
                              Event.removeDoc none] } := by
  refine ⟨rfl, rfl, rfl, rfl, rfl⟩

/-! ## Store-first ordering -/

theorem storeFirst_append (env : Env) (exempt : Bool) (evs1 evs2 : List Event) :
    ∀ (n : Nat) (last : Last),
      storeFirst env exempt n last evs1 = true →
      (∀ l, storeFirst env exempt (n + dbCount evs1) l evs2 = true) →
      storeFirst env exempt n last (evs1 ++ evs2) = true := by
  induction evs1 with
  | nil =>
    intro n last _ h2
    simpa [dbCount] using h2 last
  | cons e evs1 ih =>
    intro n last h1 h2
    cases e with
    | find p =>
      simp only [List.cons_append, storeFirst] at h1 ⊢
      refine ih _ _ h1 (fun l => ?_)
      have := h2 l
      simp only [dbCount, List.countP_cons, Event.isDbOp, if_true] at this ⊢
      rw [show n + 1 + List.countP Event.isDbOp evs1 = n + (List.countP Event.isDbOp evs1 + 1) by omega]
      exact this
    | insert d =>
      simp only [List.cons_append, storeFirst] at h1 ⊢
      refine ih _ _ h1 (fun l => ?_)
      have := h2 l
      simp only [dbCount, List.countP_cons, Event.isDbOp, if_true] at this ⊢
      rw [show n + 1 + List.countP Event.isDbOp evs1 = n + (List.countP Event.isDbOp evs1 + 1) by omega]
      exact this
    | update d =>
      simp only [List.cons_append, storeFirst] at h1 ⊢
      refine ih _ _ h1 (fun l => ?_)
      have := h2 l
      simp only [dbCount, List.countP_cons, Event.isDbOp, if_true] at this ⊢
      rw [show n + 1 + List.countP Event.isDbOp evs1 = n + (List.countP Event.isDbOp evs1 + 1) by omega]
      exact this
    | delete p =>
      simp only [List.cons_append, storeFirst] at h1 ⊢
      refine ih _ _ h1 (fun l => ?_)
      have := h2 l
      simp only [dbCount, List.countP_cons, Event.isDbOp, if_true] at this ⊢
      rw [show n + 1 + List.countP Event.isDbOp evs1 = n + (List.countP Event.isDbOp evs1 + 1) by omega]
      exact this
    | removeDoc doc =>
      cases doc with
      | none =>
        simp only [List.cons_append, storeFirst, Bool.and_eq_true] at h1 ⊢
        refine ⟨h1.1, ih _ _ h1.2 (fun l => ?_)⟩
        simpa [dbCount, List.countP_cons, Event.isDbOp] using h2 l
      | some d =>
        simp only [List.cons_append, storeFirst, Bool.and_eq_true] at h1 ⊢
        refine ⟨h1.1, ih _ _ h1.2 (fun l => ?_)⟩
        simpa [dbCount, List.countP_cons, Event.isDbOp] using h2 l
    | dropIndexDb =>
      simp only [List.cons_append, storeFirst] at h1 ⊢
      refine ih _ _ h1 (fun l => ?_)
      simpa [dbCount, List.countP_cons, Event.isDbOp] using h2 l
    | httpDrop r =>
      simp only [List.cons_append, storeFirst] at h1 ⊢
      refine ih _ _ h1 (fun l => ?_)
      simpa [dbCount, List.countP_cons, Event.isDbOp] using h2 l
    | indexDoc d =>
      simp only [List.cons_append, storeFirst, Bool.and_eq_true] at h1 ⊢
      refine ⟨h1.1, ih _ _ h1.2 (fun l => ?_)⟩
      simpa [dbCount, List.countP_cons, Event.isDbOp] using h2 l
    | httpIndex b r =>
      simp only [List.cons_append, storeFirst, Bool.and_eq_true] at h1 ⊢
      refine ⟨h1.1, ih _ _ h1.2 (fun l => ?_)⟩
      simpa [dbCount, List.countP_cons, Event.isDbOp] using h2 l
    | httpRemove k r =>
      simp only [List.cons_append, storeFirst, Bool.and_eq_true] at h1 ⊢
      refine ⟨h1.1, ih _ _ h1.2 (fun l => ?_)⟩
      simpa [dbCount, List.countP_cons, Event.isDbOp] using h2 l

theorem StoreFirstStep.refl (env : Env) (exempt : Bool) (w : World) : StoreFirstStep env exempt w w :=
  ⟨[], by simp, by simp [dbCount], fun _ => rfl⟩

theorem StoreFirstStep.trans {env : Env} {exempt : Bool} {w w1 w2 : World}
    (h1 : StoreFirstStep env exempt w w1) (h2 : StoreFirstStep env exempt w1 w2) :
    StoreFirstStep env exempt w w2 := by
  obtain ⟨evs1, ht1, hd1, hs1⟩ := h1
  obtain ⟨evs2, ht2, hd2, hs2⟩ := h2
  refine ⟨evs1 ++ evs2, by rw [ht2, ht1, List.append_assoc], ?_, ?_⟩
  · rw [hd2, hd1]
    simp only [dbCount, List.countP_append]
    omega
  · intro last
    refine storeFirst_append env exempt evs1 evs2 _ last (hs1 last) (fun l => ?_)
    rw [← hd1]
    exact hs2 l

theorem lastOk_of_allowsPush {exempt : Bool} {last : Last} {path : String}
    (h : allowsPush exempt last path = true) : lastOk exempt last = true := by
  cases last with
  | none => simp [allowsPush] at h
  | lookup p =>
    simp only [allowsPush, Bool.and_eq_true] at h
    simpa [lastOk] using h.1
  | write kind p ok =>
    cases kind <;> simp only [allowsPush, Bool.and_eq_true] at h <;>
      simpa [lastOk] using h.1

theorem storeFirst_indexEvents (env : Env) (exempt : Bool) (n : Nat) (last : Last)
    (d : Document) (w : World) (h : allowsPush exempt last d.Path = true) :
    storeFirst env exempt n last (indexEvents env d w) = true ∧
    List.countP Event.isDbOp (indexEvents env d w) = 0 := by
  have h2 := lastOk_of_allowsPush h
  unfold indexEvents
  cases osReadFile env d.Path <;>
    simp [storeFirst, h, h2, List.countP_cons, Event.isDbOp]

theorem AddArticle_storeFirst (env : Env) (exempt : Bool) (path : String) (w : World) :
    StoreFirstStep env exempt w (AddArticle env path w) := by
  unfold StoreFirstStep AddArticle
  cases hf : env.dbFault w.dbOps
  case stmt =>
    simp only [Insert, hf, World.emit, World.tick]
    exact ⟨_, rfl, by simp [dbCount, Event.isDbOp], fun _ => by simp [storeFirst]⟩
  case result =>
    simp only [Insert, hf, World.emit, World.tick]
    exact ⟨_, rfl, by simp [dbCount, Event.isDbOp], fun _ => by simp [storeFirst]⟩
  all_goals
    simp only [Insert, hf, indexDoc_world, World.emit, World.tick, List.append_assoc,
      List.singleton_append]
    have hi := fun w1 => storeFirst_indexEvents env exempt (w.dbOps + 1)
      (Last.write Write.insert (NewDocument env path).Path true)
      { NewDocument env path with Id := nextId w } w1 (by simp [allowsPush])
    refine ⟨_, rfl, ?_, ?_⟩
    · simp [dbCount, List.countP_cons, Event.isDbOp, (hi _).2]
    · intro last
      simp only [storeFirst, hf, Fault.writeOk]
      exact (hi _).1

theorem DelArticle_storeFirst (env : Env) (path : String) (w : World) :
    StoreFirstStep env false w (DelArticle env path w).world := by
  unfold StoreFirstStep DelArticle Find
  cases hf1 : env.dbFault w.dbOps <;> cases hl : lookup w.rows path <;>
    simp only [Delete, World.emit, World.tick, removeDoc, dryIndex, httpDo, Res.world,
      Bool.false_eq_true, if_false, List.append_assoc, List.singleton_append,
      List.cons_append, List.nil_append] <;>
    cases hf2 : env.dbFault (w.dbOps + 1) <;>
    (try simp only [Res.world, List.append_assoc, List.singleton_append, List.cons_append,
      List.nil_append]) <;>
    refine ⟨_, rfl, by simp [dbCount, Event.isDbOp], fun last => ?_⟩ <;>
    simp [storeFirst, allowsPush, lastOk, hf1, hf2, Row.scan, Fault.writeOk]
  all_goals exact (lookup_path hl).symm

theorem Find_world (env : Env) (p : String) (w : World) :
    (Find env p w).2 = (w.emit (Event.find p)).tick := by
  unfold Find
  split <;> rfl

theorem Find_some_path (env : Env) (p : String) (w : World) (a : Document) (ok : Bool)
    (h : (Find env p w).1 = (some a, ok)) : a.Path = p := by
  unfold Find at h
  split at h <;> simp only [Prod.mk.injEq, Option.some.injEq] at h
  all_goals first
    | exact absurd h.1 (by simp)
    | (rename_i r hl
       rw [← h.1]
       exact lookup_path (by assumption))

theorem find_storeFirst (env : Env) (exempt : Bool) (p : String) (w : World) :
    StoreFirstStep env exempt w ((w.emit (Event.find p)).tick) :=
  ⟨[Event.find p], rfl, by simp [World.emit, World.tick, dbCount, Event.isDbOp],
    fun _ => by simp [storeFirst]⟩

theorem update_then_index_storeFirst (env : Env) (exempt : Bool) (p : String) (b : Document)
    (w : World) :
    StoreFirstStep env exempt w
      (match Update env b ((w.emit (Event.find p)).tick) with
        | ((_, true), w2) => (indexDoc env b w2).2
        | ((_, false), w2) => w2) := by
  unfold StoreFirstStep
  cases hf2 : env.dbFault (w.dbOps + 1)
  case stmt =>
    simp only [Update, World.emit, World.tick, hf2, List.append_assoc, List.singleton_append]
    exact ⟨_, rfl, by simp [dbCount, Event.isDbOp], fun _ => by simp [storeFirst]⟩
  case result =>
    simp only [Update, World.emit, World.tick, hf2, List.append_assoc, List.singleton_append]
    exact ⟨_, rfl, by simp [dbCount, Event.isDbOp], fun _ => by simp [storeFirst]⟩
  all_goals
    simp only [Update, World.emit, World.tick, hf2, indexDoc_world, List.append_assoc,
      List.singleton_append, List.cons_append, List.nil_append]
    have hi := fun w1 => storeFirst_indexEvents env exempt (w.dbOps + 1 + 1)
      (Last.write Write.update b.Path true) b w1 (by simp [allowsPush])
    refine ⟨_, rfl, ?_, fun last => ?_⟩
    · simp [dbCount, List.countP_cons, Event.isDbOp, (hi _).2]
    · simp only [storeFirst, hf2, Fault.writeOk]
      exact (hi _).1

theorem UpdateArticle_storeFirst (env : Env) (path : String) (w : World) :
    StoreFirstStep env false w (UpdateArticle env path w).world := by
  unfold UpdateArticle
  rcases hF : Find env path w with ⟨⟨a, ok⟩, w1⟩
  have hw1 : w1 = (w.emit (Event.find path)).tick := by
    have := Find_world env path w
    rw [hF] at this
    exact this
  subst hw1
  cases ok
  · exact (find_storeFirst env false path w).trans (AddArticle_storeFirst env false path _)
  · cases a with
    | none => exact find_storeFirst env false path w
    | some a =>
      by_cases hc : a.Compare (NewDocument env path) = true
      · simp only [hc, if_true]
        have := update_then_index_storeFirst env false path
          { NewDocument env path with Id := a.Id } w
        revert this
        cases Update env { NewDocument env path with Id := a.Id }
          ((w.emit (Event.find path)).tick) with
        | mk r w2 =>
          obtain ⟨c, ok2⟩ := r
          cases ok2 <;> exact fun h => h
      · simp only [hc, if_false]
        exact find_storeFirst env false path w

theorem step_storeFirst (env : Env) (w : World) (e : String × FileInfo) :
    StoreFirstStep env false w (FirstRun.step env false w e) := by
  unfold FirstRun.step
  dsimp only
  rcases hF : Find env e.1 w with ⟨⟨a, ok⟩, w1⟩
  have hw1 : w1 = (w.emit (Event.find e.1)).tick := by
    have := Find_world env e.1 w
    rw [hF] at this
    exact this
  subst hw1
  cases ok
  · cases a <;>
      exact (find_storeFirst env false e.1 w).trans (AddArticle_storeFirst env false e.1 _)
  · cases a with
    | none =>
      exact (find_storeFirst env false e.1 w).trans (AddArticle_storeFirst env false e.1 _)
    | some a =>
      simp only [Bool.false_eq_true, if_false]
      by_cases hc : a.Compare (NewDocumentByFileinfo env e.1 e.2) = true
      · simp only [hc, if_true]
        have := update_then_index_storeFirst env false e.1
          { NewDocumentByFileinfo env e.1 e.2 with Id := a.Id } w
        revert this
        cases Update env { NewDocumentByFileinfo env e.1 e.2 with Id := a.Id }
          ((w.emit (Event.find e.1)).tick) with
        | mk r w2 =>
          obtain ⟨c, ok2⟩ := r
          cases ok2 <;> exact fun h => h
      · simp only [hc, if_false]
        exact find_storeFirst env false e.1 w

theorem step_forced_storeFirst (env : Env) (w : World) (e : String × FileInfo) :
    StoreFirstStep env true w (FirstRun.step env true w e) := by
  unfold FirstRun.step
  dsimp only
  rcases hF : Find env e.1 w with ⟨⟨a, ok⟩, w1⟩
  have hw1 : w1 = (w.emit (Event.find e.1)).tick := by
    have := Find_world env e.1 w
    rw [hF] at this
    exact this
  subst hw1
  cases ok
  · cases a <;>
      exact (find_storeFirst env true e.1 w).trans (AddArticle_storeFirst env true e.1 _)
  · cases a with
    | none =>
      exact (find_storeFirst env true e.1 w).trans (AddArticle_storeFirst env true e.1 _)
    | some a =>
      have hp : a.Path = e.1 := Find_some_path env e.1 w a true (by rw [hF])
      have hi1 := fun (n : Nat) (ok : Bool) (w1 : World) =>
        storeFirst_indexEvents env true n (Last.write Write.update e.1 ok) a w1
          (by simp [allowsPush, hp])
      have hi2 := fun (n : Nat) (w1 : World) =>
        storeFirst_indexEvents env true n (Last.lookup e.1) a w1 (by simp [allowsPush, hp])
      unfold StoreFirstStep
      by_cases hc : a.Compare (NewDocumentByFileinfo env e.1 e.2) = true
      · simp only [hc, if_true]
        cases hf2 : env.dbFault (w.dbOps + 1) <;>
          simp only [Update, World.emit, World.tick, hf2, indexDoc_world, List.append_assoc,
            List.singleton_append, List.cons_append, List.nil_append] <;>
          refine ⟨_, rfl, ?_, fun last => ?_⟩
        all_goals first
          | simp [dbCount, List.countP_cons, Event.isDbOp, (hi1 0 true _).2]
          | (simp only [storeFirst, NewDocumentByFileinfo]
             exact (hi1 _ _ _).1)
      · simp only [hc, if_false, Bool.false_eq_true, indexDoc_world, World.emit, World.tick,
          List.append_assoc, List.singleton_append]
        refine ⟨_, rfl, ?_, fun last => ?_⟩
        · simp [dbCount, List.countP_cons, Event.isDbOp, (hi2 0 _).2]
        · simp only [storeFirst]
          exact (hi2 _ _).1

theorem step_forced_untracked_storeFirst (env : Env) (w : World) (e : String × FileInfo)
    (h : (Find env e.1 w).1.1 = none) :
    StoreFirstStep env false w (FirstRun.step env true w e) := by
  unfold FirstRun.step
  dsimp only
  rcases hF : Find env e.1 w with ⟨⟨a, ok⟩, w1⟩
  have hw1 : w1 = (w.emit (Event.find e.1)).tick := by
    have := Find_world env e.1 w
    rw [hF] at this
    exact this
  subst hw1
  rw [hF] at h
  simp only at h
  subst h
  cases ok <;>
    exact (find_storeFirst env false e.1 w).trans (AddArticle_storeFirst env false e.1 _)

theorem MoveArticle_storeFirst (env : Env) (oldPath path : String) (w : World) :
    StoreFirstStep env false w (MoveArticle env oldPath path w).world := by
  have hd := DelArticle_storeFirst env oldPath w
  unfold MoveArticle
  cases hr : DelArticle env oldPath w with
  | ok u w1 =>
    rw [hr] at hd
    exact hd.trans (AddArticle_storeFirst env false path w1)
  | panic w1 =>
    rw [hr] at hd
    exact hd

theorem dispatch_storeFirst (env : Env) (event : WatcherEvent) (w : World) :
    StoreFirstStep env false w (Run.dispatch env event w).world := by
  unfold Run.dispatch
  cases event.Op
  · exact AddArticle_storeFirst env false event.Path w
  · exact UpdateArticle_storeFirst env event.Path w
  · exact DelArticle_storeFirst env event.Path w
  · exact MoveArticle_storeFirst env event.OldPath event.Path w
  · exact StoreFirstStep.refl env false w
  · exact MoveArticle_storeFirst env event.OldPath event.Path w

theorem fold_storeFirst (env : Env) (l : List (String × FileInfo)) :
    ∀ w : World, StoreFirstStep env false w (l.foldl (FirstRun.step env false) w) := by
  induction l with
  | nil => intro w; exact StoreFirstStep.refl env false w
  | cons e l ih =>
    intro w
    exact (step_storeFirst env w e).trans (ih _)

theorem fold_forced_storeFirst (env : Env) (l : List (String × FileInfo)) :
    ∀ w : World, StoreFirstStep env true w (l.foldl (FirstRun.step env true) w) := by
  induction l with
  | nil => intro w; exact StoreFirstStep.refl env true w
  | cons e l ih =>
    intro w
    exact (step_forced_storeFirst env w e).trans (ih _)

theorem dropIndexDb_storeFirst (env : Env) (exempt : Bool) (w : World) :
    StoreFirstStep env exempt w (dropIndexDb env w).2 := by
  rw [dropIndexDb_world]
  exact ⟨_, rfl, by simp [dbCount, Event.isDbOp], fun _ => by simp [storeFirst]⟩

/-- C11 at the counterexample. The store tracks `md/a.md` with an outdated digest and the
`UPDATE` of the forced pass fails; `indexDoc` is called and the request is sent all the
same, so the trace of the forced pass breaks the strict store-first discipline. -/
theorem FirstRun_forced_pushes_after_failed_update :
    faultyEnv.dbFault 1 = Fault.stmt ∧
    FirstRun faultyEnv true [("md/a.md", ⟨⟨100, 7⟩⟩)] demoWorld
      = { rows := [⟨1, "md/a.md", "#old", ⟨50, 0⟩⟩], seq := 1, dbOps := 2, httpOps := 2,
          trace := [Event.dropIndexDb, Event.httpDrop (some 200), Event.find "md/a.md",
            Event.update ⟨1, "md/a.md", "#hello", ⟨100, 7⟩⟩,
            Event.indexDoc ⟨1, "md/a.md", "#old", ⟨50, 0⟩⟩,
            Event.httpIndex ⟨1, "hello", ⟨"a", "a", "#old"⟩, 0⟩ (some 200)] } ∧
    storeFirst faultyEnv false demoWorld.dbOps Last.none
      (FirstRun faultyEnv true [("md/a.md", ⟨⟨100, 7⟩⟩)] demoWorld).trace = false := by
  refine ⟨rfl, rfl, rfl⟩

/-- C11, as amended. Store-first ordering, whatever SQL statements fail. In the unforced
start-up pass and in every event handler the appended events follow the strict discipline:
every call of `indexDoc` or `removeDoc` and every index or remove request comes after a
store write (`Insert`, `Update` or `Delete`) for the same record that succeeded, with no
lookup in between, so after a failed store write nothing is pushed for that record. The
forced start-up pass follows the same discipline with one exemption: the Index push of a
path is also issued right after the lookup of that path or after an `Update` for it,
whatever its outcome; an iteration of the forced pass whose lookup returns no document
(the path has no record, or the lookup failed) follows the strict discipline. -/
theorem store_first_except_forced_push_of_tracked_path (env : Env) (w : World) :
    (∀ snap : List (String × FileInfo), ∃ evs,
      (FirstRun env false snap w).trace = w.trace ++ evs ∧
      storeFirst env false w.dbOps Last.none evs = true) ∧
    (∀ event : WatcherEvent, ∃ evs,
      (Run.dispatch env event w).world.trace = w.trace ++ evs ∧
      storeFirst env false w.dbOps Last.none evs = true) ∧
    (∀ snap : List (String × FileInfo), ∃ evs,
      (FirstRun env true snap w).trace = w.trace ++ evs ∧
      storeFirst env true w.dbOps Last.none evs = true) ∧
    (∀ entry : String × FileInfo, (Find env entry.1 w).1.1 = none → ∃ evs,
      (FirstRun.step env true w entry).trace = w.trace ++ evs ∧
      storeFirst env false w.dbOps Last.none evs = true) := by
  refine ⟨?_, ?_, ?_, ?_⟩
  · intro snap
    obtain ⟨evs, ht, _, hs⟩ := fold_storeFirst env snap w
    exact ⟨evs, by simpa [FirstRun] using ht, hs Last.none⟩
  · intro event
    obtain ⟨evs, ht, _, hs⟩ := dispatch_storeFirst env event w
    exact ⟨evs, ht, hs Last.none⟩
  · intro snap
    obtain ⟨evs, ht, _, hs⟩ :=
      (dropIndexDb_storeFirst env true w).trans (fold_forced_storeFirst env snap _)
    exact ⟨evs, by simpa [FirstRun] using ht, hs Last.none⟩
  · intro entry h
    obtain ⟨evs, ht, _, hs⟩ := step_forced_untracked_storeFirst env w entry h
    exact ⟨evs, ht, hs Last.none⟩

/-! ## The forced pass: one push per tracked or readable path -/

theorem indexEvents_readable (env : Env) (d : Document) (w : World) (c : String)
    (h : osReadFile env d.Path = some c) :
    indexEvents env d w
      = [Event.indexDoc d,
         Event.httpIndex ⟨d.Id, c, ⟨d.RelativePath env.MdDir, d.Title, d.Md5sum⟩, 0⟩
           (env.http w.httpOps)] := by
  simp [indexEvents, h, article]

theorem RequestSent.append_right {env : Env} {p : String} {evs : List Event}
    (h : RequestSent env p evs) (more : List Event) : RequestSent env p (evs ++ more) := by
  obtain ⟨d, c, r, pre, post, hc, hd, he⟩ := h
  exact ⟨d, c, r, pre, post ++ more, hc, hd, by rw [he]; simp⟩

theorem RequestSent.append_left {env : Env} {p : String} {evs : List Event}
    (h : RequestSent env p evs) (before : List Event) : RequestSent env p (before ++ evs) := by
  obtain ⟨d, c, r, pre, post, hc, hd, he⟩ := h
  exact ⟨d, c, r, before ++ pre, post, hc, hd, by rw [he]; simp⟩

theorem RequestSent_indexEvents (env : Env) (d : Document) (w : World) (p : String)
    (hd : d.Path = p) (hr : Readable env p) : RequestSent env p (indexEvents env d w) := by
  obtain ⟨f, fi, c, ho, hs, hdat⟩ := hr
  have hrf : osReadFile env p = some c := by simp [osReadFile, ho, hdat]
  refine ⟨d, c, env.http w.httpOps, [], [], hrf, hd, ?_⟩
  rw [indexEvents_readable env d w c (by rw [hd]; exact hrf)]
  rfl

theorem step_self_forced (env : Env) (w : World) (p : String) (f : FileInfo)
    (hdb : NoDbFault env) (h : Readable env p ∨ lookup w.rows p ≠ none) :
    ∃ evs, (FirstRun.step env true w (p, f)).trace = w.trace ++ evs ∧
      indexCalls p evs = 1 ∧ (Readable env p → RequestSent env p evs) := by
  unfold FirstRun.step
  simp only [Find_ok env p w (hdb _)]
  cases hl : lookup w.rows p with
  | none =>
    have hr : Readable env p := by
      rcases h with h | h
      · exact h
      · exact absurd hl h
    simp only [Option.map_none']
    rw [AddArticle_ok env p _ (hdb _)]
    obtain ⟨fi, hnd, _, _⟩ := NewDocument_readable env p hr
    have hcount := indexCalls_indexEvents env
      { NewDocument env p with Id := nextId ((w.emit (Event.find p)).tick) }
      ((w.emit (Event.find p)).tick) p
    simp only [hnd, if_true, indexCalls] at hcount
    have hreq := RequestSent_indexEvents env
      { NewDocument env p with Id := nextId ((w.emit (Event.find p)).tick) }
      ((w.emit (Event.find p)).tick) p (by rw [hnd]) hr
    refine ⟨Event.find p :: Event.insert (NewDocument env p) :: indexEvents env
      { NewDocument env p with Id := nextId ((w.emit (Event.find p)).tick) }
      ((w.emit (Event.find p)).tick), by simp [World.emit, World.tick], ?_, fun _ => ?_⟩
    · simp only [indexCalls, List.countP_cons, Event.isIndexOf]
      simp [hnd, hcount]
    · exact hreq.append_left [Event.find p, Event.insert (NewDocument env p)]
  | some r =>
    have hrp : (r.scan env).Path = p := by
      simp only [Row.scan]
      exact lookup_path hl
    have hidx : ∀ w1 : World, indexCalls p (indexEvents env (r.scan env) w1) = 1 := by
      intro w1
      rw [indexCalls_indexEvents]
      simp [hrp]
    simp only [indexCalls] at hidx
    simp only [Option.map_some', if_true, indexDoc_world]
    by_cases hc : (r.scan env).Compare (NewDocumentByFileinfo env p f) = true
    · simp only [hc, if_true, Update_ok env _ _ (hdb _)]
      refine ⟨Event.find p :: Event.update
        { NewDocumentByFileinfo env p f with Id := (r.scan env).Id } :: indexEvents env
          (r.scan env) _, by simp [World.emit, World.tick]; rfl, ?_, fun hr => ?_⟩
      · simp [indexCalls, List.countP_cons, Event.isIndexOf, hidx]
      · exact (RequestSent_indexEvents env (r.scan env) _ p hrp hr).append_left
          [Event.find p, Event.update _]
    · simp only [hc, if_false]
      refine ⟨Event.find p :: indexEvents env (r.scan env) _,
        by simp [World.emit, World.tick]; rfl, ?_, fun hr => ?_⟩
      · simp [indexCalls, List.countP_cons, Event.isIndexOf, hidx]
      · exact (RequestSent_indexEvents env (r.scan env) _ p hrp hr).append_left
          [Event.find p]

theorem fold_forced_index (env : Env) (p : String) (hdb : NoDbFault env) (hp : p ≠ "")
    (l : List (String × FileInfo)) :
    ∀ w : World, (l.map Prod.fst).Nodup → p ∈ l.map Prod.fst →
      (Readable env p ∨ lookup w.rows p ≠ none) →
      ∃ evs, (l.foldl (FirstRun.step env true) w).trace = w.trace ++ evs ∧
        indexCalls p evs = 1 ∧ (Readable env p → RequestSent env p evs) := by
  induction l with
  | nil => intro w _ hmem; simp at hmem
  | cons e l ih =>
    intro w hnd hmem hcond
    simp only [List.map_cons, List.nodup_cons] at hnd
    by_cases he : e.1 = p
    · obtain ⟨evs1, ht1, hc1, hr1⟩ := step_self_forced env w p e.2 hdb hcond
      have hee : e = (p, e.2) := by rw [← he]
      rw [← hee] at ht1
      obtain ⟨_, evs2, ht2, hc2⟩ :=
        fold_other env true p hdb hp l (FirstRun.step env true w e)
          (by rw [← he]; exact hnd.1)
      refine ⟨evs1 ++ evs2, by rw [List.foldl_cons, ht2, ht1, List.append_assoc], ?_,
        fun hr => (hr1 hr).append_right evs2⟩
      simp only [indexCalls, List.countP_append] at hc1 hc2 ⊢
      omega
    · obtain ⟨hrows, evs1, ht1, hc1⟩ := step_other env true w e.1 e.2 p hdb hp he
      have hmem2 : p ∈ l.map Prod.fst := by
        simp only [List.map_cons, List.mem_cons] at hmem
        rcases hmem with h | h
        · exact absurd h.symm he
        · exact h
      have hcond2 : Readable env p ∨ lookup (FirstRun.step env true w e).rows p ≠ none := by
        rcases hcond with h | h
        · exact Or.inl h
        · refine Or.inr (fun hn => h ?_)
          rw [← rowsFor_eq_zero_iff] at hn ⊢
          rw [← hrows]
          exact hn
      obtain ⟨evs2, ht2, hc2, hr2⟩ := ih (FirstRun.step env true w e) hnd.2 hmem2 hcond2
      refine ⟨evs1 ++ evs2, by rw [List.foldl_cons, ht2, ht1, List.append_assoc], ?_,
        fun hr => (hr2 hr).append_left evs1⟩
      simp only [indexCalls, List.countP_append] at hc1 hc2 ⊢
      omega

theorem forcedSegments_no_drop (env : Env) (l : List (String × FileInfo))
    (segs : List (List Event)) (h : List.Forall₂ (ForcedSegment env) l segs) :
    ∀ x ∈ segs.flatten, x.isDrop = false := by
  induction h with
  | nil => intro x hx; simp at hx
  | cons hseg _ ih =>
    intro x hx
    rw [List.flatten_cons, List.mem_append] at hx
    rcases hx with hx | hx
    · obtain ⟨rest, rfl, hrest, _, _⟩ := hseg
      simp only [List.mem_cons] at hx
      rcases hx with rfl | hx
      · rfl
      · exact (hrest x hx).2
    · exact ih x hx

/-- C3 at the counterexample. The forced pass over a snapshot with the untracked path
`md/c.md`, whose file cannot be opened, with every SQL statement succeeding: the pass
inserts the empty document and calls `indexDoc` on it, so there is no call of `indexDoc`
for `md/c.md` and no index request at all. -/
theorem FirstRun_forced_unreadable_untracked_not_pushed :
    NoDbFault demoEnv ∧
    osOpen demoEnv "md/c.md" = none ∧
    FirstRun demoEnv true [("md/c.md", ⟨⟨300, 0⟩⟩)] emptyWorld
      = { rows := [⟨1, "", "", Time.zero⟩], seq := 1, dbOps := 2, httpOps := 1,
          trace := [Event.dropIndexDb, Event.httpDrop (some 200), Event.find "md/c.md",
            Event.insert ⟨0, "", "", Time.zero⟩, Event.indexDoc ⟨1, "", "", Time.zero⟩] } ∧
    indexCalls "md/c.md" (FirstRun demoEnv true [("md/c.md", ⟨⟨300, 0⟩⟩)] emptyWorld).trace
      = 0 := by
  refine ⟨fun _ => rfl, rfl, rfl, rfl⟩

/-- C3, as amended. Force-reindex: when `FirstRun` runs with `Force` set and every store
operation succeeds, the pass starts with the one call of `dropIndexDb` and its request and
no later event is a drop; every path of the snapshot that has a store record before the
pass or whose file is readable gets exactly one call of `indexDoc` for that path during the
pass, whatever digest and modification time the store holds for it, and when the file is
readable that call is followed by its index request carrying the file content. The snapshot
is a map of non-empty paths (each path once). -/
theorem FirstRun_force_drops_once_then_pushes_tracked_or_readable_once (env : Env)
    (snap : List (String × FileInfo)) (w : World)
    (hdb : NoDbFault env)
    (hsnap : (snap.map Prod.fst).Nodup)
    (hne : "" ∉ snap.map Prod.fst) :
    ∃ evs, (FirstRun env true snap w).trace
        = w.trace ++ Event.dropIndexDb :: Event.httpDrop (env.http w.httpOps) :: evs ∧
      (∀ x ∈ evs, x.isDrop = false) ∧
      ∀ p ∈ snap.map Prod.fst, (Readable env p ∨ lookup w.rows p ≠ none) →
        indexCalls p evs = 1 ∧ (Readable env p → RequestSent env p evs) := by
  simp only [FirstRun, if_true, dropIndexDb_world]
  obtain ⟨segs, ht, hs⟩ := fold_force_segments env hdb snap
    { w with trace := w.trace ++ [Event.dropIndexDb, Event.httpDrop (env.http w.httpOps)],
             httpOps := w.httpOps + 1 }
  refine ⟨segs.flatten, by rw [ht]; simp, forcedSegments_no_drop env snap segs hs, ?_⟩
  intro p hp hcond
  have hp0 : p ≠ "" := fun h => hne (h ▸ hp)
  obtain ⟨evs2, ht2, hc2, hr2⟩ := fold_forced_index env p hdb hp0 snap
    { w with trace := w.trace ++ [Event.dropIndexDb, Event.httpDrop (env.http w.httpOps)],
             httpOps := w.httpOps + 1 } hsnap hp hcond
  rw [ht] at ht2
  rw [List.append_cancel_left ht2]
  exact ⟨hc2, hr2⟩

/-- Witness for C3: the forced pass over the demo snapshot (`md/a.md` tracked, `md/b.md`
readable). -/
theorem FirstRun_force_drops_once_then_pushes_tracked_or_readable_once_witness :
    ∃ evs, (FirstRun demoEnv true demoSnap demoWorld).trace
        = demoWorld.trace
            ++ Event.dropIndexDb :: Event.httpDrop (demoEnv.http demoWorld.httpOps) :: evs ∧
      (∀ x ∈ evs, x.isDrop = false) ∧
      ∀ p ∈ demoSnap.map Prod.fst, (Readable demoEnv p ∨ lookup demoWorld.rows p ≠ none) →
        indexCalls p evs = 1 ∧ (Readable demoEnv p → RequestSent demoEnv p evs) :=
  FirstRun_force_drops_once_then_pushes_tracked_or_readable_once demoEnv demoSnap demoWorld
    demoEnv_noDbFault (by decide) (by decide)

/-! ## Counterexamples to the claims as stated -/

/-- C2 at the counterexample. Every SQL statement succeeds, the store returns the second it
was given, `md/a.md` is readable and untracked, and the file system does not change; the
snapshot records second 90 for the file, whose modification time on disk is second 100. The
first pass inserts the row with the time `f.Stat()` returns; the second pass compares it with
the snapshot, calls `Update` and pushes the document again. -/
theorem FirstRun_twice_on_stale_snapshot_writes_and_pushes :
    NoDbFault demoEnv ∧
    (∀ t, (demoEnv.scanTime t).Unix = t.Unix) ∧
    (∀ e ∈ staleSnap, Readable demoEnv e.1) ∧
    FirstRun demoEnv false staleSnap emptyWorld
      = { rows := [⟨1, "md/a.md", "#hello", ⟨100, 7⟩⟩], seq := 1, dbOps := 2, httpOps := 1,
          trace := [Event.find "md/a.md", Event.insert ⟨0, "md/a.md", "#hello", ⟨100, 7⟩⟩,
            Event.indexDoc ⟨1, "md/a.md", "#hello", ⟨100, 7⟩⟩,
            Event.httpIndex ⟨1, "hello", ⟨"a", "a", "#hello"⟩, 0⟩ (some 200)] } ∧
    FirstRun demoEnv false staleSnap (FirstRun demoEnv false staleSnap emptyWorld)
      = { rows := [⟨1, "md/a.md", "#hello", ⟨90, 0⟩⟩], seq := 1, dbOps := 4, httpOps := 2,
          trace := [Event.find "md/a.md", Event.insert ⟨0, "md/a.md", "#hello", ⟨100, 7⟩⟩,
            Event.indexDoc ⟨1, "md/a.md", "#hello", ⟨100, 7⟩⟩,
            Event.httpIndex ⟨1, "hello", ⟨"a", "a", "#hello"⟩, 0⟩ (some 200),
            Event.find "md/a.md", Event.update ⟨1, "md/a.md", "#hello", ⟨90, 0⟩⟩,
            Event.indexDoc ⟨1, "md/a.md", "#hello", ⟨90, 0⟩⟩,
            Event.httpIndex ⟨1, "hello", ⟨"a", "a", "#hello"⟩, 0⟩ (some 200)] } := by
  refine ⟨fun _ => rfl, fun _ => rfl, ?_, rfl, rfl⟩
  intro e he
  simp only [staleSnap, List.mem_singleton] at he
  subst he
  exact demoEnv_readable_a

/-- C4 at the counterexample. The store holds the record of `md/a.md` under id 1 and
`md/b.md` is readable, but the `DELETE` of the handler fails: the Move event issues no Remove
push at all (the row of `md/a.md` stays) and goes on to insert and push `md/b.md`. -/
theorem Move_with_failing_delete_issues_no_remove :
    faultyEnv.dbFault 1 = Fault.stmt ∧
    lookup demoWorld.rows "md/a.md" = some ⟨1, "md/a.md", "#old", ⟨50, 0⟩⟩ ∧
    Run.dispatch faultyEnv ⟨Op.Move, "md/b.md", "md/a.md"⟩ demoWorld
      = Res.ok ()
          { rows := [⟨1, "md/a.md", "#old", ⟨50, 0⟩⟩, ⟨2, "md/b.md", "#world", ⟨200, 9⟩⟩],
            seq := 2, dbOps := 3, httpOps := 1,
            trace := [Event.find "md/a.md", Event.delete "md/a.md",
              Event.insert ⟨0, "md/b.md", "#world", ⟨200, 9⟩⟩,
              Event.indexDoc ⟨2, "md/b.md", "#world", ⟨200, 9⟩⟩,
              Event.httpIndex ⟨2, "world", ⟨"b", "b", "#world"⟩, 0⟩ (some 200)] } := by
  refine ⟨rfl, rfl, rfl⟩

/-- C5 at the counterexample. The store holds the record of `md/a.md` under id 1 with an
outdated digest and the file is readable, but the `UPDATE` of the handler fails: the Write
event leaves the record as it was and issues no Index push. -/
theorem Write_with_failing_update_issues_no_index :
    faultyEnv.dbFault 1 = Fault.stmt ∧
    lookup demoWorld.rows "md/a.md" = some ⟨1, "md/a.md", "#old", ⟨50, 0⟩⟩ ∧
    (Row.scan faultyEnv ⟨1, "md/a.md", "#old", ⟨50, 0⟩⟩).Compare
      (NewDocument faultyEnv "md/a.md") = true ∧
    Run.dispatch faultyEnv ⟨Op.Write, "md/a.md", ""⟩ demoWorld
      = Res.ok ()
          { rows := [⟨1, "md/a.md", "#old", ⟨50, 0⟩⟩], seq := 1, dbOps := 2, httpOps := 0,
            trace := [Event.find "md/a.md",
              Event.update ⟨1, "md/a.md", "#hello", ⟨100, 7⟩⟩] } := by
  refine ⟨rfl, rfl, rfl, rfl⟩

end MarkdownBlog
